import Mathlib

/-!
Verification of the MF portfolio conversion and ISIN reconciliation core.

This file embeds, as executable Lean definitions, the functions of
`scripts/convert_mf_portfolio.py` and `scripts/isin_validation_mapping.py`
that the verified properties are about, and proves the properties.

Python strings are modelled as Lean `String` (a list of characters);
the handful of Python string primitives used by the scripts (`lower`,
`strip`, `in`, `startswith`, slicing, `split`, `join`) are given
character-list implementations below.  Python `float` cell values are
modelled as rationals: none of the verified properties depend on
floating-point rounding, only on which cells parse as numbers.
-/

/-- Model of Python `str.lower()` (character-wise; the scripts only feed it
ASCII spreadsheet text). -/
def pyLower (s : String) : String := ⟨s.data.map Char.toLower⟩

/-- Model of Python `str.upper()`. -/
def pyUpper (s : String) : String := ⟨s.data.map Char.toUpper⟩

/-- Drop leading and trailing whitespace from a character list. -/
def trimChars (l : List Char) : List Char :=
  ((l.dropWhile Char.isWhitespace).reverse.dropWhile Char.isWhitespace).reverse

/-- Model of Python `str.strip()`. -/
def pyStrip (s : String) : String := ⟨trimChars s.data⟩

/-- Substring containment on character lists (`pat in s` in Python). -/
def containsSub (pat : List Char) : List Char → Bool
  | [] => List.isPrefixOf pat []
  | c :: rest => List.isPrefixOf pat (c :: rest) || containsSub pat rest

/-- Model of Python `pat in s`. -/
def strContains (s pat : String) : Bool := containsSub pat.data s.data

/-- Model of Python `s.startswith(pat)`. -/
def strStarts (s pat : String) : Bool := List.isPrefixOf pat.data s.data

/-- Model of Python slicing `s[a:b]` for `0 ≤ a ≤ b`. -/
def pySlice (s : String) (a b : Nat) : String := ⟨(s.data.drop a).take (b - a)⟩

/-- Model of Python `s[:n]`. -/
def pyTake (s : String) (n : Nat) : String := ⟨s.data.take n⟩

/-- Model of Python `len(s)`. -/
def pyLen (s : String) : Nat := s.data.length

/-- Python word character (`\w` over the ASCII text these sheets contain). -/
def wordChar (c : Char) : Bool := c.isAlphanum || c = '_'

/-- Helper for `\b pat \b` search: scan positions left to right; `prev` is the
character just before the current position (`none` at the start). -/
def hasWordAt (pat : List Char) (prev : Option Char) : List Char → Bool
  | [] => false
  | c :: rest =>
      ((match prev with | none => true | some p => !wordChar p) &&
        List.isPrefixOf pat (c :: rest) &&
        (match (c :: rest).drop pat.length with
          | [] => true
          | d :: _ => !wordChar d)) ||
      hasWordAt pat (some c) rest

/-- Model of `re.search(r'\b…\b', s)` for a literal word pattern. -/
def standaloneWord (pat : List Char) (l : List Char) : Bool := hasWordAt pat none l

/-!
## `convert_mf_portfolio.py`: identifier validation and assignment
-/

/-- `ISIN_OTHER`: the single synthetic code for all non-standard items. -/
def ISIN_OTHER : String := "IN9999999999"

/-- `ISIN_OTHER_DISPLAY_NAME`. -/
def ISIN_OTHER_DISPLAY_NAME : String := "Cash & Other Assets"

/-- `is_valid_isin`: empty is invalid; otherwise starts with `IN` and
`len ≥ 12`. -/
def isValidIsin (isin : String) : Bool :=
  if isin = "" then false
  else strStarts isin "IN" && decide (12 ≤ pyLen isin)

/-- `assign_isin`: the original identifier if valid, else `ISIN_OTHER`.
(The instrument-name argument is unused, as in the source.) -/
def assignIsin (isinOriginal : String) (instrumentName : String) : String :=
  if isValidIsin isinOriginal then isinOriginal else ISIN_OTHER

/-!
## `convert_mf_portfolio.py`: `is_aggregation_row`
-/

/-- `skip_patterns` of `is_aggregation_row`. -/
def skipPatternsList : List String := ["sub total", "subtotal", "grand total", "grandtotal"]

/-- `section_headers` of `is_aggregation_row`. -/
def sectionHeadersList : List String :=
  ["treasury bills", "treasury bill",
   "money market instruments", "money market",
   "debt instruments", "debt",
   "equity & equity related", "equity and equity",
   "listed / awaiting", "listed/awaiting",
   "privately placed", "unlisted",
   "certificate of deposit", "commercial paper",
   "government securities", "government security",
   "corporate debt", "corporate bond",
   "securitised debt", "pass through",
   "units of real estate", "reits",
   "units of an alternative", "aif",
   "zero coupon bonds", "deep discount bonds",
   "others"]

/-- First branch of `is_aggregation_row`: a `skip_patterns` entry occurs in the
name or in the identifier cell. -/
def skipPatternHit (nameLower isinLower : String) : Bool :=
  skipPatternsList.any (fun p => strContains nameLower p || strContains isinLower p)

/-- Guard of the section-header branch: the identifier cell does not start
with `in` or its length differs from 12. -/
def sectionGuard (isinLower : String) : Bool :=
  !(strStarts isinLower "in") || decide (pyLen isinLower ≠ 12)

/-- Section-header branch body: the name equals or starts with a listed
section-header phrase. -/
def sectionHeaderHit (nameLower : String) : Bool :=
  sectionHeadersList.any (fun h => nameLower = h || strStarts nameLower h)

/-- Third branch: name or identifier cell is exactly `total`. -/
def exactTotalHit (nameLower isinLower : String) : Bool :=
  nameLower = "total" || isinLower = "total"

/-- Fourth branch: the full row text contains the standalone word `total`
and does not contain `net`. -/
def rowTotalHit (rowLower : String) : Bool :=
  rowLower ≠ "" && (standaloneWord "total".data rowLower.data && !(strContains rowLower "net"))

/-- `is_aggregation_row`. -/
def isAggregationRow (name isin fullRowText : String) : Bool :=
  let nameLower := pyStrip (pyLower name)
  let isinLower := pyStrip (pyLower isin)
  let rowLower := if fullRowText ≠ "" then pyLower fullRowText else ""
  skipPatternHit nameLower isinLower ||
  (sectionGuard isinLower && sectionHeaderHit nameLower) ||
  exactTotalHit nameLower isinLower ||
  rowTotalHit rowLower

/-!
## Generic list machinery: Python `sorted`, dict/`defaultdict` grouping, `set`
-/

/-- Lexicographic comparison of character lists by code point — the order
Python uses on `str`. -/
def charListLe : List Char → List Char → Bool
  | [], _ => true
  | _ :: _, [] => false
  | a :: as, b :: bs => if a.toNat = b.toNat then charListLe as bs else decide (a.toNat < b.toNat)

/-- Python `≤` on strings. -/
def strLeB (a b : String) : Bool := charListLe a.data b.data

/-- Insert into a sorted list, before the first element it compares `≤` to
(keeps the stability of Python `sorted`). -/
def insertLe {α : Type} (le : α → α → Bool) (x : α) : List α → List α
  | [] => [x]
  | y :: ys => if le x y then x :: y :: ys else y :: insertLe le x ys

/-- Stable sort (model of Python `sorted` with a key). -/
def sortByB {α : Type} (le : α → α → Bool) : List α → List α
  | [] => []
  | x :: xs => insertLe le x (sortByB le xs)

/-- The distinct keys of a list in first-occurrence order — the key order of a
Python `dict`/`defaultdict` built by insertion. -/
def keyOrder {α β : Type} [DecidableEq β] (f : α → β) (l : List α) : List β :=
  l.foldl (fun ks x => if f x ∈ ks then ks else ks ++ [f x]) []

/-- Python `len(set(l))`. -/
def distinctCount {β : Type} [DecidableEq β] (l : List β) : Nat := l.dedup.length

/-- Join strings with a separator character (Python `sep.join`). -/
def joinWithChars (sep : Char) : List String → List Char
  | [] => []
  | [s] => s.data
  | s :: s2 :: rest => s.data ++ sep :: joinWithChars sep (s2 :: rest)

/-- Python `sep.join(ls)` for a one-character separator. -/
def joinWith (sep : Char) (ls : List String) : String := ⟨joinWithChars sep ls⟩

/-- Split a character list at every separator (Python `s.split(sep)` for a
one-character separator: `n` separators yield `n+1` fields). -/
def splitChar (sep : Char) : List Char → List (List Char)
  | [] => [[]]
  | c :: rest =>
    match splitChar sep rest with
    | [] => [[]]
    | h :: t => if c = sep then [] :: h :: t else (c :: h) :: t

/-- Python `s.split(sep)`. -/
def splitStr (sep : Char) (s : String) : List String := (splitChar sep s.data).map (⟨·⟩)

/-- Whitespace split: accumulate the current word (reversed) while walking the
text; words are maximal nonempty runs of non-whitespace (Python `s.split()`). -/
def splitWsAux (cur : List Char) : List Char → List String
  | [] => if cur = [] then [] else [⟨cur.reverse⟩]
  | c :: rs =>
      if c.isWhitespace then
        if cur = [] then splitWsAux [] rs else ⟨cur.reverse⟩ :: splitWsAux [] rs
      else splitWsAux (c :: cur) rs

/-- Python `s.split()` (no argument: split on whitespace runs, no empties). -/
def pySplitWs (s : String) : List String := splitWsAux [] s.data

/-- Collapse each whitespace run to a single space
(`re.sub(r'\s+', ' ', name)`); `prevWs` records whether the previous
character was whitespace. -/
def collapseWsAux (prevWs : Bool) : List Char → List Char
  | [] => []
  | c :: rs =>
      if c.isWhitespace then
        if prevWs then collapseWsAux true rs else ' ' :: collapseWsAux true rs
      else c :: collapseWsAux false rs

/-- `re.sub(r'\s+', ' ', s)`. -/
def collapseWs (l : List Char) : List Char := collapseWsAux false l

/-- `l.getD i dflt` specialised to strings: Python `parts[i] if len(parts) > i
else ''`. -/
def listGetD (l : List String) (i : Nat) : String := l.getD i ""

/-!
## `isin_validation_mapping.py`: name standardisation and ISIN anatomy
-/

/-- `NAME_CUT_LENGTH`. -/
def NAME_CUT_LENGTH : Nat := 7

/-- `standardize_name`: lowercase, strip, keep only `[a-z0-9]`. -/
def standardizeName (name : String) : String :=
  if name = "" then ""
  else ⟨(pyStrip (pyLower name)).data.filter (fun c => c.isLower || c.isDigit)⟩

/-- `parse_isin`: `issuer_code = isin[3:7]`. -/
def issuerCode (isin : String) : String := pySlice isin 3 7

/-- `parse_isin`: `security_type = isin[7:9]`. -/
def securityType (isin : String) : String := pySlice isin 7 9

/-- `parse_isin`: `serial = isin[9:11]`. -/
def serialOf (isin : String) : String := pySlice isin 9 11

/-- `parse_isin`: `base_9 = isin[:9]`. -/
def base9 (isin : String) : String := pyTake isin 9

/-- `get_security_category`. -/
def getSecurityCategory (secType : String) : String :=
  if secType = "01" then "EQUITY"
  else if secType = "16" || secType = "D6" then "CD"
  else if secType = "14" then "CP"
  else if secType = "07" || secType = "08" then "NCD"
  else "OTHER"

/-- An aggregated ledger entry as produced by `load_holdings_data`: one row
per distinct identifier with its display name and summed market value.  The
derived dictionary fields (`name_std`, `name_cut`, `issuer_code`, `serial`,
`base_9`, `sec_category`) are pure functions of these and are modelled as the
functions above. -/
structure Item where
  isin : String
  name : String
  mv : Rat
deriving DecidableEq, Repr

/-- `name_cut`: first `NAME_CUT_LENGTH` characters of the standardised name. -/
def nameCut (it : Item) : String := pyTake (standardizeName it.name) NAME_CUT_LENGTH

/-- `sec_category` of an item. -/
def secCategory (it : Item) : String := getSecurityCategory (securityType it.isin)

/-- `SYNTHETIC_PREFIX`. -/
def SYNTHETIC_PREFIX : String := "SYN"

/-- Python `f"{n:02d}"` for a natural number. -/
def twoDigits (n : Nat) : String := if n < 10 then "0" ++ toString n else toString n

/-- `generate_synthetic_isin`: `SYN{IssuerCode}{Category}{Seq:02d}`. -/
def generateSyntheticIsin (issuer category : String) (seq : Nat) : String :=
  SYNTHETIC_PREFIX ++ issuer ++ category ++ twoDigits seq

/-!
## `isin_validation_mapping.py`: `extract_company_name`
-/

/-- Word boundary `\b` immediately after a match, looking at the remainder. -/
def wordBoundaryAfterB (l : List Char) : Bool :=
  match l with
  | [] => true
  | c :: _ => !wordChar c

/-- ASCII `[A-Z]`. -/
def isUpperAZ (c : Char) : Bool := decide ('A' ≤ c) && decide (c ≤ 'Z')

/-- Scan for `re.match(r'^(.+?\s+BANK)\b', name)` on a single-line name:
find the smallest index `k ≥ 2` such that the character at `k-1` is
whitespace and `BANK` followed by a word boundary starts at `k`; the group
is then `name[:k+4]`.  `k` is the index of the head of the remaining list,
`prev` the character at `k-1`. -/
def bankMatchFrom (k : Nat) (prev : Char) : List Char → Option Nat
  | [] => none
  | c :: rs =>
      if 2 ≤ k && prev.isWhitespace && List.isPrefixOf "BANK".data (c :: rs) &&
          wordBoundaryAfterB ((c :: rs).drop 4) then some k
      else bankMatchFrom (k + 1) c rs

/-- `re.match(r'^(.+?\s+BANK)\b', name)`, returning `group(1)`. -/
def bankMatch (name : String) : Option String :=
  match name.data with
  | [] => none
  | c0 :: rest =>
    match bankMatchFrom 1 c0 rest with
    | some k => some (pyTake name (k + 4))
    | none => none

/-- Tail check for a suffix pattern `\s+LIT…$`: after skipping the whitespace
run, the remainder must start with the literal; `needWs` additionally demands
a whitespace character right after it (for patterns `\s+LIT\s…$`). -/
def litWsCheck (lit : List Char) (needWs : Bool) (rem : List Char) : Bool :=
  List.isPrefixOf lit rem &&
  (!needWs ||
    (match rem.drop lit.length with
     | c :: _ => c.isWhitespace
     | [] => false))

/-- Tail check for `\s+\d+D\s…$`: digits, then `D`, then whitespace. -/
def digitsDCheck (rem : List Char) : Bool :=
  let ds := rem.takeWhile Char.isDigit
  !ds.isEmpty &&
  (match rem.drop ds.length with
   | 'D' :: c :: _ => c.isWhitespace
   | _ => false)

/-- Leftmost start of a suffix match `\s+…$`: the first position holding a
whitespace character whose run is followed by a tail accepted by `check`.
Returns the index at which `re.sub(pattern, '', name)` starts deleting. -/
def suffixScanAux (check : List Char → Bool) (k : Nat) : List Char → Option Nat
  | [] => none
  | c :: rs =>
      if c.isWhitespace && check (rs.dropWhile Char.isWhitespace) then some k
      else suffixScanAux check (k + 1) rs

/-- `re.sub(r'\s+…$', '', ·)` on a single-line name: delete from the leftmost
match to the end. -/
def applySuffix (check : List Char → Bool) (l : List Char) : List Char :=
  match suffixScanAux check 0 l with
  | some k => l.take k
  | none => l

/-- `extract_company_name`. -/
def extractCompanyName (fullName : String) : String :=
  if fullName = "" then ""
  else
    let name := pyStrip (pyUpper fullName)
    match bankMatch name with
    | some p => p
    | none =>
      let l := name.data
      let l := applySuffix (litWsCheck "LIMITED".data false) l
      let l := applySuffix (litWsCheck "LTD".data false) l
      let l := applySuffix (litWsCheck "BANK".data true) l
      let l := applySuffix (litWsCheck "EQ".data true) l
      let l := applySuffix (litWsCheck "CD".data true) l
      let l := applySuffix (litWsCheck "CP".data true) l
      let l := applySuffix (litWsCheck "NCD".data true) l
      let l := applySuffix digitsDCheck l
      let cleaned := pyStrip ⟨collapseWs l⟩
      if pyLen cleaned < 5 then
        " ".intercalate ((pySplitWs (pyUpper fullName)).take 3)
      else cleaned

/-- `generate_aggregated_name`. -/
def generateAggregatedName (items : List Item) (category : String) : String :=
  match items with
  | [] => ""
  | first :: _ =>
    let baseName := extractCompanyName first.name
    if category = "CD" then baseName ++ " CD"
    else if category = "CP" then
      if strContains (pyUpper first.name) "365D" then baseName ++ " 365D CP"
      else baseName ++ " CP"
    else baseName ++ " " ++ category

/-!
## `isin_validation_mapping.py`: `detect_goi_security`
-/

/-- Generic `re.search`: try the position check at every suffix. -/
def searchSub (check : List Char → Bool) : List Char → Bool
  | [] => check []
  | c :: rs => check (c :: rs) || searchSub check rs

/-- Position check for `\d+\.\d+\s*(FV|%)`. -/
def couponPatTail (l : List Char) : Bool :=
  let d1 := l.takeWhile Char.isDigit
  !d1.isEmpty &&
  (match l.drop d1.length with
   | '.' :: r2 =>
     let d2 := r2.takeWhile Char.isDigit
     !d2.isEmpty &&
     (let r3 := (r2.drop d2.length).dropWhile Char.isWhitespace
      List.isPrefixOf "FV".data r3 || List.isPrefixOf "%".data r3)
   | _ => false)

/-- `re.search(r'\d+\.\d+\s*(FV|%)', s)`. -/
def hasCouponPat (s : String) : Bool := searchSub couponPatTail s.data

/-- `\d{2}[A-Z]{2}\d{2}` at the head of the list. -/
def exact2d2u2d : List Char → Bool
  | a :: b :: c :: d :: e :: f :: _ =>
      a.isDigit && b.isDigit && isUpperAZ c && isUpperAZ d && e.isDigit && f.isDigit
  | _ => false

/-- Position check for `GOI\s+\d{2}[A-Z]{2}\d{2}`. -/
def goiDatePatTail (l : List Char) : Bool :=
  List.isPrefixOf "GOI".data l &&
  (let r := l.drop 3
   let ws := r.takeWhile Char.isWhitespace
   !ws.isEmpty && exact2d2u2d (r.drop ws.length))

/-- `re.search(r'GOI\s+\d{2}[A-Z]{2}\d{2}', s)`. -/
def hasGoiDatePat (s : String) : Bool := searchSub goiDatePatTail s.data

/-- `detect_goi_security`: `some "TBILL"`, `some "GSEC"`, or `none`. -/
def detectGoiSecurity (name : String) : Option String :=
  if name = "" then none
  else
    let nameUpper := pyUpper name
    if !(strContains nameUpper "GOVERNMENT OF INDIA") && !(strContains nameUpper "GOI") then
      none
    else if strContains nameUpper "TBILL" || strContains nameUpper "T-BILL" ||
        strContains nameUpper "T BILL" then some "TBILL"
    else if hasCouponPat nameUpper then some "GSEC"
    else if hasGoiDatePat nameUpper then some "GSEC"
    else none

/-!
## `isin_validation_mapping.py`: `detect_and_categorize`

The Python function appends every produced row both to its category list and
to `results['validation_rows']`; the category lists are therefore exactly the
category-field filters of the chronological `validation_rows` list, which is
what `detectAndCategorize` returns.  The mutable `processed_isins` set is
threaded explicitly as a list of identifiers.
-/

/-- A `ReconciliationRow` as built by `detect_and_categorize`. -/
structure RRow where
  name_cut : String
  category : String
  action : String
  reason : String
  isin_original : String
  isin_mapped : String
  name_original : String
  name_mapped : String
  mv : Rat
  issuer_code : String
  is_target : Bool
deriving DecidableEq, Repr

/-- The T-Bill aggregation row for one item. -/
def mkTbillRow (it : Item) : RRow :=
  { name_cut := "governm", category := "TBILL_AGGREGATE", action := "AGGREGATE",
    reason := "GOI T-Bill, aggregate to synthetic",
    isin_original := it.isin, isin_mapped := "SYNGOITBILL01",
    name_original := pyTake it.name 60, name_mapped := "GOI T-BILL",
    mv := it.mv, issuer_code := "GOI", is_target := false }

/-- The G-Sec aggregation row for one item. -/
def mkGsecRow (it : Item) : RRow :=
  { name_cut := "governm", category := "GSEC_AGGREGATE", action := "AGGREGATE",
    reason := "GOI G-Sec (dated bond), aggregate to synthetic",
    isin_original := it.isin, isin_mapped := "SYNGOIGSEC01",
    name_original := pyTake it.name 60, name_mapped := "GOI G-SEC",
    mv := it.mv, issuer_code := "GOI", is_target := false }

/-- One corporate-action row: `newest` is the serial-wise last member of the
group (`sorted_items[-1]`), target of the mapping. -/
def caRow (ncut issuer : String) (newest it : Item) : RRow :=
  let isTarget := it.isin = newest.isin
  { name_cut := ncut, category := "CORPORATE_ACTION",
    action := if isTarget then "TARGET" else "MAP",
    reason := "Same issuer " ++ issuer ++ ", equity, serial " ++ serialOf it.isin ++
      (if isTarget then " (TARGET - newest)" else " -> " ++ serialOf newest.isin),
    isin_original := it.isin, isin_mapped := newest.isin,
    name_original := pyTake it.name 60, name_mapped := pyTake newest.name 60,
    mv := it.mv, issuer_code := issuer, is_target := isTarget }

/-- One CD/CP aggregation row (the Python dict literal shared by both
branches, with the synthetic identifier, aggregate name, category and reason
passed in). -/
def aggRow (ncut issuer synIsin aggName category reason : String) (it : Item) : RRow :=
  { name_cut := ncut, category := category, action := "AGGREGATE", reason := reason,
    isin_original := it.isin, isin_mapped := synIsin,
    name_original := pyTake it.name 60, name_mapped := aggName,
    mv := it.mv, issuer_code := issuer, is_target := false }

/-- One NO_ACTION row. -/
def naRow (ncut issuer : String) (it : Item) : RRow :=
  { name_cut := ncut, category := "NO_ACTION", action := "NONE",
    reason := "Different issuer " ++ issuer ++ ", valid separate company",
    isin_original := it.isin, isin_mapped := it.isin,
    name_original := pyTake it.name 60, name_mapped := pyTake it.name 60,
    mv := it.mv, issuer_code := issuer, is_target := false }

/-- Corporate-action detection for one `base_9` sub-group: the members not
yet processed, when at least two and of equity security type, are sorted by
serial; the last is the target; every member yields a row and is marked
processed. -/
def processBase9Group (ncut issuer : String) (pr : List String) (base9Items : List Item) :
    List RRow × List String :=
  let ub := base9Items.filter (fun i => !(pr.contains i.isin))
  match ub with
  | i0 :: _ :: _ =>
    if securityType i0.isin = "01" then
      let sorted := sortByB (fun a b => charListLe (serialOf a.isin).data (serialOf b.isin).data) ub
      let newest := sorted.getLastD i0
      (sorted.map (caRow ncut issuer newest), pr ++ sorted.map (·.isin))
    else ([], pr)
  | _ => ([], pr)

/-- The corporate-action pass over the `base_9` sub-groups of one issuer
group (the `by_base9` loop): fold over the keys in first-occurrence order,
accumulating rows and threading `processed_isins`. -/
def caFold (ncut issuer : String) (pr : List String) (issuerItems : List Item) :
    List RRow × List String :=
  (keyOrder (fun i => base9 i.isin) issuerItems).foldl
    (fun acc b =>
      (acc.1 ++ (processBase9Group ncut issuer acc.2
        (issuerItems.filter (fun i => base9 i.isin = b))).1,
       (processBase9Group ncut issuer acc.2
        (issuerItems.filter (fun i => base9 i.isin = b))).2)) ([], pr)

/-- CD aggregation of one issuer group: the unprocessed CD members, when at
least two, all map to one synthesized identifier with a generated aggregate
name. -/
def cdStep (ncut issuer : String) (pr : List String) (issuerItems : List Item) :
    List RRow × List String :=
  let cds := issuerItems.filter (fun i => secCategory i = "CD" && !(pr.contains i.isin))
  if 2 ≤ cds.length then
    (cds.map (aggRow ncut issuer (generateSyntheticIsin issuer "CD" 1)
       (generateAggregatedName cds "CD") "CD_AGGREGATE"
       ("CD for issuer " ++ issuer ++ ", aggregate to synthetic")),
     pr ++ cds.map (·.isin))
  else ([], pr)

/-- CP aggregation of one issuer group. -/
def cpStep (ncut issuer : String) (pr : List String) (issuerItems : List Item) :
    List RRow × List String :=
  let cps := issuerItems.filter (fun i => secCategory i = "CP" && !(pr.contains i.isin))
  if 2 ≤ cps.length then
    (cps.map (aggRow ncut issuer (generateSyntheticIsin issuer "CP" 1)
       (generateAggregatedName cps "CP") "CP_AGGREGATE"
       ("CP for issuer " ++ issuer ++ ", aggregate to synthetic")),
     pr ++ cps.map (·.isin))
  else ([], pr)

/-- One issuer sub-group of a name group: corporate-action pass over its
`base_9` sub-groups, then CD aggregation, then CP aggregation. -/
def processIssuerGroup (ncut issuer : String) (pr : List String) (issuerItems : List Item) :
    List RRow × List String :=
  if distinctCount (issuerItems.map (·.isin)) < 2 then ([], pr)
  else
    let caState := caFold ncut issuer pr issuerItems
    let cdState := cdStep ncut issuer caState.2 issuerItems
    let cpState := cpStep ncut issuer cdState.2 issuerItems
    (caState.1 ++ cdState.1 ++ cpState.1, cpState.2)

/-- The NO_ACTION sweep at the end of a name group with several issuers:
every member still unprocessed is recorded and marked, item by item. -/
def naSweep (ncut : String) (st : List RRow × List String) (items : List Item) :
    List RRow × List String :=
  let issuerKeys := keyOrder (fun i => issuerCode i.isin) items
  if 1 < issuerKeys.length then
    issuerKeys.foldl
      (fun acc ic =>
        (items.filter (fun i => issuerCode i.isin = ic)).foldl
          (fun acc2 it =>
            if acc2.2.contains it.isin then acc2
            else (acc2.1 ++ [naRow ncut ic it], acc2.2 ++ [it.isin])) acc) st
  else st

/-- The issuer loop of one name group. -/
def issuerFold (ncut : String) (pr : List String) (items : List Item) :
    List RRow × List String :=
  (keyOrder (fun i => issuerCode i.isin) items).foldl
    (fun acc ic =>
      (acc.1 ++ (processIssuerGroup ncut ic acc.2
        (items.filter (fun i => issuerCode i.isin = ic))).1,
       (processIssuerGroup ncut ic acc.2
        (items.filter (fun i => issuerCode i.isin = ic))).2)) ([], pr)

/-- One name-prefix group: requires at least two rows and two distinct
identifiers; runs the issuer sub-groups, then, when several issuers share
the prefix, records the still-unprocessed members as NO_ACTION. -/
def processNameGroup (ncut : String) (pr : List String) (items : List Item) :
    List RRow × List String :=
  if items.length < 2 then ([], pr)
  else if distinctCount (items.map (·.isin)) < 2 then ([], pr)
  else naSweep ncut (issuerFold ncut pr items) items

/-- The items the GOI pre-step classifies as T-Bills. -/
def goiTbills (data : List Item) : List Item :=
  data.filter (fun i => detectGoiSecurity i.name = some "TBILL")

/-- The items the GOI pre-step classifies as G-Secs. -/
def goiGsecs (data : List Item) : List Item :=
  data.filter (fun i => detectGoiSecurity i.name = some "GSEC")

/-- `processed_isins` after the GOI pre-step. -/
def goiProcessed (data : List Item) : List String :=
  (goiTbills data).map (·.isin) ++ (goiGsecs data).map (·.isin)

/-- The items entering `name_groups`: non-empty `name_cut` and not claimed by
the GOI pre-step. -/
def eligibleItems (data : List Item) : List Item :=
  data.filter (fun i => nameCut i ≠ "" && !((goiProcessed data).contains i.isin))

/-- The name-group loop over the sorted `name_cut` keys. -/
def nameGroupFold (data : List Item) : List RRow × List String :=
  (sortByB strLeB (keyOrder nameCut (eligibleItems data))).foldl
    (fun acc k =>
      (acc.1 ++ (processNameGroup k acc.2
        ((eligibleItems data).filter (fun i => nameCut i = k))).1,
       (processNameGroup k acc.2
        ((eligibleItems data).filter (fun i => nameCut i = k))).2))
    ([], goiProcessed data)

/-- `detect_and_categorize`, returning the chronological `validation_rows`
list; the category lists of the Python results dict are its category-field
filters. -/
def detectAndCategorize (data : List Item) : List RRow :=
  (goiTbills data).map mkTbillRow ++ (goiGsecs data).map mkGsecRow ++
    (nameGroupFold data).1

/-- `results['corporate_action']`. -/
def corporateActionRows (rows : List RRow) : List RRow :=
  rows.filter (·.category = "CORPORATE_ACTION")

/-- `results['cd_aggregate']`. -/
def cdAggregateRows (rows : List RRow) : List RRow :=
  rows.filter (·.category = "CD_AGGREGATE")

/-- `results['cp_aggregate']`. -/
def cpAggregateRows (rows : List RRow) : List RRow :=
  rows.filter (·.category = "CP_AGGREGATE")

/-- `results['tbill_aggregate']`. -/
def tbillAggregateRows (rows : List RRow) : List RRow :=
  rows.filter (·.category = "TBILL_AGGREGATE")

/-- `results['gsec_aggregate']`. -/
def gsecAggregateRows (rows : List RRow) : List RRow :=
  rows.filter (·.category = "GSEC_AGGREGATE")

/-- `results['no_action']`. -/
def noActionRows (rows : List RRow) : List RRow :=
  rows.filter (·.category = "NO_ACTION")

/-!
## `write_mapping_file` and `load_isin_validation_mapping`
-/

/-- Tab-join of the five output fields of one mapping line. -/
def tabJoin (fields : List String) : String := joinWith '\t' fields

/-- One line of `isin_mapping_final.txt` (the category is written as the
literal string of the emitting loop, as in the source). -/
def mappingLine (cat : String) (r : RRow) : String :=
  tabJoin [r.isin_original, r.isin_mapped, r.name_mapped, cat, r.reason]

/-- Header line of the mapping file. -/
def mappingHeader : String :=
  tabJoin ["isin_original", "isin_mapped", "name_mapped", "category", "reason"]

/-- The rows `write_mapping_file` writes: corporate-action rows with action
`MAP`, then the CD, CP, T-Bill and G-Sec aggregation rows. -/
def mappingEntries (rows : List RRow) : List RRow :=
  (corporateActionRows rows).filter (·.action = "MAP") ++
  cdAggregateRows rows ++ cpAggregateRows rows ++
  tbillAggregateRows rows ++ gsecAggregateRows rows

/-- The lines of `isin_mapping_final.txt`. -/
def writeMappingLines (rows : List RRow) : List String :=
  mappingHeader ::
    ((corporateActionRows rows).filter (·.action = "MAP")).map (mappingLine "CORPORATE_ACTION") ++
    (cdAggregateRows rows).map (mappingLine "CD_AGGREGATE") ++
    (cpAggregateRows rows).map (mappingLine "CP_AGGREGATE") ++
    (tbillAggregateRows rows).map (mappingLine "TBILL_AGGREGATE") ++
    (gsecAggregateRows rows).map (mappingLine "GSEC_AGGREGATE")

/-- The file content written by `write_mapping_file`:
`'\n'.join(lines)`. -/
def writeMappingContent (rows : List RRow) : String :=
  joinWith '\n' (writeMappingLines rows)

/-- One value of the validation-mapping dict of
`load_isin_validation_mapping`. -/
structure VEntry where
  isin_mapped : String
  name_mapped : String
  category : String
  reason : String
deriving DecidableEq, Repr

/-- Python dict update `m[k] = v`. -/
def dictInsert (m : List (String × VEntry)) (k : String) (v : VEntry) :
    List (String × VEntry) :=
  (m.filter (fun kv => kv.1 ≠ k)) ++ [(k, v)]

/-- Python dict lookup `m.get(k)`. -/
def dictGet (m : List (String × VEntry)) (k : String) : Option VEntry :=
  (m.find? (fun kv => kv.1 = k)).map (·.2)

/-- `load_isin_validation_mapping` applied to the file content: skip the
header, strip each line, split on tabs, keep lines with at least three
fields. -/
def loadIsinValidationMapping (content : String) : List (String × VEntry) :=
  let lines := splitStr '\n' content
  (lines.drop 1).foldl
    (fun m line =>
      let parts := splitStr '\t' (pyStrip line)
      if 3 ≤ parts.length then
        dictInsert m (listGetD parts 0)
          { isin_mapped := listGetD parts 1, name_mapped := listGetD parts 2,
            category := listGetD parts 3, reason := listGetD parts 4 }
      else m) []

/-- The validation-mapping application inside `process_sheet` (lines
651–656): mapped identifier, mapped name, category and reason, with the
assigned identifier and resolved display name as defaults. -/
def resolveValidation (vm : List (String × VEntry)) (isinAssigned nameFinal : String) :
    String × String × String × String :=
  match dictGet vm isinAssigned with
  | some e => (e.isin_mapped, e.name_mapped, e.category, e.reason)
  | none => (isinAssigned, nameFinal, "", "")

/-!
## `convert_mf_portfolio.py`: sheet model

A pandas cell is modelled by its `pd.notna` status, its `str(...)`
rendering and its `float(...)` value when that conversion succeeds
(`num = none` models `float` raising `ValueError`/`TypeError`).  `float` of
a NaN cell succeeds in Python; the NaN payload is modelled as `0` — no
verified property reads that value.  A sheet is the list of its rows.
-/

/-- One spreadsheet cell. -/
structure Cell where
  na : Bool
  text : String
  num : Option Rat
deriving DecidableEq, Repr

/-- A missing (NaN) cell. -/
def blankCell : Cell := { na := true, text := "nan", num := some 0 }

/-- A non-numeric text cell (`float` on it raises). -/
def strCell (s : String) : Cell := { na := false, text := s, num := none }

/-- A numeric cell with its text rendering. -/
def numCell (q : Rat) (txt : String) : Cell := { na := false, text := txt, num := some q }

/-- The uncaught pandas error of interest: positional indexing out of
bounds. -/
inductive PdErr
  | indexError
deriving DecidableEq, Repr

/-- Checked positional access `row.iloc[i]` (raises `IndexError` when out of
bounds, which `find_grand_total` does not catch). -/
def cellAt (row : List Cell) (i : Nat) : Except PdErr Cell :=
  match row.get? i with
  | some c => Except.ok c
  | none => Except.error PdErr.indexError

/-- Positional access in contexts where the surrounding code guarantees the
index is in range (rectangular grid, column indices from the header row). -/
def cellAtD (row : List Cell) (i : Nat) : Cell := row.getD i blankCell

/-- `' '.join(str(v) for v in row if pd.notna(v))`. -/
def rowJoinText (row : List Cell) : String :=
  joinWith ' ' ((row.filter (fun c => !c.na)).map (·.text))

/-- `float(cell)` inside a `try` catching `ValueError`/`TypeError`:
`none` when the conversion raises. -/
def pyFloatOfCell (c : Cell) : Option Rat :=
  if c.na then some 0 else c.num

/-- `str(v).strip() if pd.notna(v) else ''`. -/
def cellStrStripped (c : Cell) : String := if !c.na then pyStrip c.text else ""

/-- `str(v).lower() if pd.notna(v) else ''`. -/
def cellLowerText (c : Cell) : String := if !c.na then pyLower c.text else ""

/-- `float(v) if pd.notna(v) else 0` with `ValueError`/`TypeError` → 0. -/
def guardedFloat (c : Cell) : Rat :=
  if !c.na then (match c.num with | some v => v | none => 0) else 0

/-!
## `convert_mf_portfolio.py`: `find_grand_total`
-/

/-- Pattern 2/3 inner loop of `find_grand_total`: first not-NA cell whose
`float` value exceeds the 10,000 floor. -/
def largeCellScan (row : List Cell) : Option Rat :=
  row.findSome? (fun c =>
    if c.na then none
    else match c.num with
      | some v => if 10000 < v then some v else none
      | none => none)

/-- The three stop patterns of `find_grand_total` applied to one row,
returning the located value if any.  Pattern 1 reads the value column
(`row.iloc[market_value_col]`): a `None` column raises a caught `TypeError`;
an out-of-range index raises an uncaught `IndexError`; a failed `float`
conversion is caught and falls through to the later patterns. -/
def grandTotalRowCheck (mvCol : Option Nat) (row : List Cell) : Except PdErr (Option Rat) :=
  let rowStr := pyLower (rowJoinText row)
  let p1 : Except PdErr (Option Rat) :=
    if strContains rowStr "grand total" then
      match mvCol with
      | none => Except.ok none
      | some c =>
        match cellAt row c with
        | Except.error e => Except.error e
        | Except.ok cell => Except.ok (pyFloatOfCell cell)
    else Except.ok none
  match p1 with
  | Except.error e => Except.error e
  | Except.ok (some v) => Except.ok (some v)
  | Except.ok none =>
    let p2 : Option Rat :=
      if strContains rowStr "total net assets" then largeCellScan row else none
    match p2 with
    | some v => Except.ok (some v)
    | none =>
      match cellAt row 0 with
      | Except.error e => Except.error e
      | Except.ok c0 =>
        let firstCell := if !c0.na then pyLower (pyStrip c0.text) else ""
        if firstCell = "total" then Except.ok (largeCellScan row) else Except.ok none

/-- Row scan of `find_grand_total`; `idx` is the 0-based index of the head
row, matches return the 1-based row number. -/
def findGrandTotalAux (mvCol : Option Nat) : Nat → List (List Cell) → Except PdErr (Option (Nat × Rat))
  | _, [] => Except.ok none
  | idx, row :: rest =>
    match grandTotalRowCheck mvCol row with
    | Except.error e => Except.error e
    | Except.ok (some v) => Except.ok (some (idx + 1, v))
    | Except.ok none => findGrandTotalAux mvCol (idx + 1) rest

/-- `find_grand_total`. -/
def findGrandTotal (df : List (List Cell)) (mvCol : Option Nat) :
    Except PdErr (Option (Nat × Rat)) :=
  findGrandTotalAux mvCol 0 df

/-!
## `convert_mf_portfolio.py`: `detect_schema`
-/

/-- A row contains an `isin`-bearing cell. -/
def isHeaderRow (row : List Cell) : Bool :=
  row.any (fun c => strContains (cellLowerText c) "isin")

/-- First header row (index and contents), scanning top-down. -/
def findHeaderRow : Nat → List (List Cell) → Option (Nat × List Cell)
  | _, [] => none
  | idx, row :: rest =>
    if isHeaderRow row then some (idx, row) else findHeaderRow (idx + 1) rest

/-- The keyword lists of the header-classification `elif` chain. -/
def nameTerms : List String := ["instrument", "name of", "security", "company"]

/-- Value-column keywords. -/
def valueTerms : List String := ["market", "fair value", "nav", "value"]

/-- Quantity-column keywords. -/
def quantityTerms : List String := ["quantity", "qty", "units", "nos"]

/-- One step of the `elif` chain of `detect_schema` for the header cell at
column `i`: a cell can claim at most one still-unclaimed role, priority
identifier > name > value > quantity; a cell matching an already-claimed
role falls through to the later branches. -/
def classifyStep : Option Nat × Option Nat × Option Nat × Option Nat → Nat → Cell →
    Option Nat × Option Nat × Option Nat × Option Nat
  | (ic, nc, mc, qc), i, cell =>
    let v := cellLowerText cell
    if strContains v "isin" && ic.isNone then (some i, nc, mc, qc)
    else if (nameTerms.any (fun t => strContains v t)) && nc.isNone then (ic, some i, mc, qc)
    else if (valueTerms.any (fun t => strContains v t)) && !(strContains v "net") && mc.isNone then
      (ic, nc, some i, qc)
    else if (quantityTerms.any (fun t => strContains v t)) && qc.isNone then (ic, nc, mc, some i)
    else (ic, nc, mc, qc)

/-- `enumerate(header)` walk of the `elif` chain. -/
def classifyAux (acc : Option Nat × Option Nat × Option Nat × Option Nat) (i : Nat) :
    List Cell → Option Nat × Option Nat × Option Nat × Option Nat
  | [] => acc
  | c :: rest => classifyAux (classifyStep acc i c) (i + 1) rest

/-- Column classification of `detect_schema`. -/
def classifyColumns (header : List Cell) : Option Nat × Option Nat × Option Nat × Option Nat :=
  classifyAux (none, none, none, none) 0 header

/-- Data-start scan: first row after the header whose identifier-column text,
stripped, starts with `IN` (1-based row number); the loop body is skipped
entirely when no identifier column was classified. -/
def findDataStartAux (isinCol : Option Nat) : Nat → List (List Cell) → Option Nat
  | _, [] => none
  | idx, row :: rest =>
    match isinCol with
    | none => none
    | some c =>
      let v := (fun cell => if !cell.na then cell.text else "") (cellAtD row c)
      if strStarts (pyStrip v) "IN" then some (idx + 1)
      else findDataStartAux isinCol (idx + 1) rest

/-- Error cases of `detect_schema`: the explicit `ValueError` when no header
row is found, or a pandas error propagating out of `find_grand_total`. -/
inductive SchemaErr
  | noHeader
  | pdError (e : PdErr)
deriving DecidableEq, Repr

/-- The `Schema` dataclass as `detect_schema` actually builds it: every
field may end up `None` (the dataclass does not enforce its `int`
annotations). -/
structure SchemaDetected where
  data_start_row : Option Nat
  isin_col : Option Nat
  name_col : Option Nat
  market_value_col : Option Nat
  quantity_col : Option Nat
  grand_total_row : Option Nat
  grand_total : Option Rat
deriving DecidableEq, Repr

/-- `detect_schema`. -/
def detectSchema (df : List (List Cell)) : Except SchemaErr SchemaDetected :=
  match findHeaderRow 0 df with
  | none => Except.error SchemaErr.noHeader
  | some (hIdx, header) =>
    let cls := classifyColumns header
    let isinCol := cls.1
    let nameCol := cls.2.1
    let mvCol := cls.2.2.1
    let qtyCol := cls.2.2.2
    let dsr := findDataStartAux isinCol (hIdx + 1) (df.drop (hIdx + 1))
    match findGrandTotal df mvCol with
    | Except.error e => Except.error (SchemaErr.pdError e)
    | Except.ok gt =>
      Except.ok
        { data_start_row := dsr, isin_col := isinCol, name_col := nameCol,
          market_value_col := mvCol, quantity_col := qtyCol,
          grand_total_row := gt.map (·.1), grand_total := gt.map (·.2) }

/-!
## `convert_mf_portfolio.py`: `process_sheet`
-/

/-- The schema as `process_sheet` consumes it (populated column indices;
`data_start_row` is 1-based as in the source). -/
structure Schema where
  data_start_row : Nat
  isin_col : Nat
  name_col : Nat
  market_value_col : Nat
  quantity_col : Nat
  grand_total_row : Option Nat := none
  grand_total : Option Rat := none
deriving DecidableEq, Repr

/-- One entry of the `isin_master` registry. -/
structure NsdlEntry where
  name_nsdl : String
  nse_symbol : String
deriving DecidableEq, Repr

/-- Registry lookup `isin_mapping.get(isin)`. -/
def masterGet (m : List (String × NsdlEntry)) (k : String) : Option NsdlEntry :=
  (m.find? (fun kv => kv.1 = k)).map (·.2)

/-- `ProcessedRow`. -/
structure PRow where
  isin_original : String
  isin_assigned : String
  instrument_name : String
  market_value : Rat
  quantity : Rat
  nse_symbol : String
  name_nsdl : String
  name_final : String
  isin_mapped : String
  name_mapped : String
  mapping_category : String
  mapping_reason : String
deriving DecidableEq, Repr

/-- The reverse-repo look-ahead: walk the rows after the current one, skip
rows with zero market value, and decide on the first non-zero row whether
the current row is a dated-children subtotal. -/
def reverseRepoSubtotal (schema : Schema) : List (List Cell) → Bool
  | [] => false
  | row :: rest =>
    let nextName := cellStrStripped (cellAtD row schema.name_col)
    let nextMv := guardedFloat (cellAtD row schema.market_value_col)
    if nextMv = 0 then reverseRepoSubtotal schema rest
    else strStarts (pyLower nextName) "reverse repo" &&
      decide (pyStrip (pyLower nextName) ≠ "reverse repo")

/-- Field assembly for one accepted row: identifier assignment, registry
lookup, display-name resolution, validation-mapping application, and the
cash-category default. -/
def buildPRow (masterMap : List (String × NsdlEntry)) (vm : List (String × VEntry))
    (isinOriginal name : String) (marketValue quantity : Rat) : PRow :=
  let isinAssigned := assignIsin isinOriginal name
  let mapping := masterGet masterMap isinAssigned
  let nameNsdl := match mapping with | some e => e.name_nsdl | none => ""
  let nameFinal :=
    if nameNsdl ≠ "" then nameNsdl
    else if isinAssigned = ISIN_OTHER then ISIN_OTHER_DISPLAY_NAME
    else name
  let res := resolveValidation vm isinAssigned nameFinal
  let catAndReason :=
    if isinAssigned = ISIN_OTHER && res.2.2.1 = "" then
      ("CASH_AGGREGATE",
       "Cash, TREPS, repos, futures, and other non-ISIN items consolidated under synthetic ISIN")
    else (res.2.2.1, res.2.2.2)
  { isin_original := isinOriginal, isin_assigned := isinAssigned, instrument_name := name,
    market_value := marketValue, quantity := quantity,
    nse_symbol := (match mapping with | some e => e.nse_symbol | none => ""),
    name_nsdl := nameNsdl, name_final := nameFinal,
    isin_mapped := res.1, name_mapped := res.2.1,
    mapping_category := catAndReason.1, mapping_reason := catAndReason.2 }

/-- The stop condition of the row walk (checked before any skip check):
`grand total` or `total net assets` anywhere in the row text, or a first
cell exactly `total`. -/
def stopRowHit (row : List Cell) : Bool :=
  strContains (pyLower (rowJoinText row)) "grand total" ||
  strContains (pyLower (rowJoinText row)) "total net assets" ||
  ((fun c => if !c.na then pyLower (pyStrip c.text) else "") (cellAtD row 0)) = "total"

/-- The row walk of `process_sheet` from `data_start_row` to the end of the
sheet: `idx` is the 0-based index of the head of `l` within `df` (the whole
sheet is carried for the reverse-repo look-ahead). -/
def processRowsAux (df : List (List Cell)) (schema : Schema)
    (masterMap : List (String × NsdlEntry)) (vm : List (String × VEntry)) :
    Nat → List (List Cell) → List PRow
  | _, [] => []
  | idx, row :: rest =>
    if stopRowHit row then []
    else if isAggregationRow (cellStrStripped (cellAtD row schema.name_col))
        (cellStrStripped (cellAtD row schema.isin_col)) (rowJoinText row) then
      processRowsAux df schema masterMap vm (idx + 1) rest
    else if pyStrip (pyLower (cellStrStripped (cellAtD row schema.name_col))) = "reverse repo" &&
        !(isValidIsin (cellStrStripped (cellAtD row schema.isin_col))) &&
        reverseRepoSubtotal schema (df.drop (idx + 1)) then
      processRowsAux df schema masterMap vm (idx + 1) rest
    else if guardedFloat (cellAtD row schema.market_value_col) = 0 then
      processRowsAux df schema masterMap vm (idx + 1) rest
    else
      buildPRow masterMap vm (cellStrStripped (cellAtD row schema.isin_col))
        (cellStrStripped (cellAtD row schema.name_col))
        (guardedFloat (cellAtD row schema.market_value_col))
        (guardedFloat (cellAtD row schema.quantity_col)) ::
        processRowsAux df schema masterMap vm (idx + 1) rest

/-- `process_sheet`: the accepted rows and their value sum. -/
def processSheet (df : List (List Cell)) (schema : Schema)
    (masterMap : List (String × NsdlEntry)) (vm : List (String × VEntry)) :
    List PRow × Rat :=
  let startIdx := schema.data_start_row - 1
  let rows := processRowsAux df schema masterMap vm startIdx (df.drop startIdx)
  (rows, (rows.map (·.market_value)).sum)

/-- The `unmapped` accumulator of `process_sheet`: emitted rows with a valid
assigned identifier absent from the registry. -/
def unmappedOf (masterMap : List (String × NsdlEntry)) (rows : List PRow) :
    List (String × String) :=
  (rows.filter (fun r => (masterGet masterMap r.isin_assigned).isNone &&
    isValidIsin r.isin_assigned)).map (fun r => (r.isin_assigned, r.instrument_name))

/-!
## Invariants of `detect_and_categorize`

`StepOk data pr pr' rows` relates one step of the engine (one corporate-action
sub-group, one CD/CP aggregation, one NO_ACTION sweep, or any composition of
steps) to the `processed_isins` set it receives (`pr`) and leaves behind
(`pr'`): the step only claims identifiers of the ledger that were not yet
processed, marks everything it claims, and produces rows with pairwise
distinct identifiers satisfying the per-row facts in `GroupRowProp`.
-/

/-- Correctness of one corporate-action group's rows: a unique canonical row,
serial-wise maximal, whose identifier and (truncated) name every member
carries as its mapped values. -/
def CAGroupOk (out : List RRow) : Prop :=
  (∃! t, t ∈ out ∧ t.is_target = true) ∧
  ∀ t ∈ out, t.is_target = true → t.action = "TARGET" ∧
    ∀ x ∈ out, x.category = "CORPORATE_ACTION" ∧
      charListLe (serialOf x.isin_original).data (serialOf t.isin_original).data = true ∧
      x.isin_mapped = t.isin_original ∧ x.name_mapped = t.name_original ∧
      x.name_cut = t.name_cut ∧ base9 x.isin_original = base9 t.isin_original ∧
      (x.is_target = false → x.action = "MAP")

/-- A corporate-action row's provenance: it was produced by some
`processBase9Group` invocation whose output (its base-prefix group) draws its
identifiers from the ledger and satisfies `CAGroupOk`. -/
def CAProv (data : List Item) (r : RRow) : Prop :=
  ∃ ncut issuer pr b9items,
    r ∈ (processBase9Group ncut issuer pr b9items).1 ∧
    (∀ x ∈ (processBase9Group ncut issuer pr b9items).1,
      ∃ it ∈ data, x.isin_original = it.isin) ∧
    CAGroupOk (processBase9Group ncut issuer pr b9items).1

/-- Per-row facts carried through the engine. -/
def GroupRowProp (data : List Item) (r : RRow) : Prop :=
  (r.action = "MAP" → r.isin_mapped ≠ r.isin_original) ∧
  ((r.category = "CD_AGGREGATE" ∨ r.category = "CP_AGGREGATE") →
    strStarts r.isin_mapped "SYN" = true ∧ r.action = "AGGREGATE") ∧
  (r.category = "CORPORATE_ACTION" → CAProv data r) ∧
  (r.category = "CORPORATE_ACTION" ∨ r.category = "CD_AGGREGATE" ∨
    r.category = "CP_AGGREGATE" ∨ r.category = "NO_ACTION")

/-- One engine step against the threaded `processed_isins` set. -/
structure StepOk (data : List Item) (pr pr' : List String) (rows : List RRow) : Prop where
  grow : ∀ s ∈ pr, s ∈ pr'
  src : ∀ r ∈ rows, ∃ it ∈ data, r.isin_original = it.isin
  fresh : ∀ r ∈ rows, r.isin_original ∉ pr
  claimed : ∀ r ∈ rows, r.isin_original ∈ pr'
  nodup : (rows.map (·.isin_original)).Nodup
  prop : ∀ r ∈ rows, GroupRowProp data r

/-- A two-line equity ledger whose identifiers share the 9-character base
prefix (the corporate-action scenario of the spec). -/
def scenarioB : List Item :=
  [⟨"INE012A01015", "ABC COMPANY LTD", 100⟩,
   ⟨"INE012A01023", "ABC COMPANY LIMITED", 200⟩]

/-- The MAP row the engine produces on `scenarioB`. -/
def scenarioBMapRow : RRow :=
  { name_cut := "abccomp", category := "CORPORATE_ACTION", action := "MAP",
    reason := "Same issuer 012A, equity, serial 01 -> 02",
    isin_original := "INE012A01015", isin_mapped := "INE012A01023",
    name_original := "ABC COMPANY LTD", name_mapped := "ABC COMPANY LIMITED",
    mv := 100, issuer_code := "012A", is_target := false }

/-- The key/value pair one written mapping line turns into when
`load_isin_validation_mapping` reads it back. -/
def kvOf (cat : String) (r : RRow) : String × VEntry :=
  (r.isin_original,
   { isin_mapped := r.isin_mapped, name_mapped := r.name_mapped,
     category := cat, reason := r.reason })

/-- The key/value pairs of the mapping artifact, in file order. -/
def mappingKVs (rows : List RRow) : List (String × VEntry) :=
  ((corporateActionRows rows).filter (·.action = "MAP")).map (kvOf "CORPORATE_ACTION") ++
  (cdAggregateRows rows).map (kvOf "CD_AGGREGATE") ++
  (cpAggregateRows rows).map (kvOf "CP_AGGREGATE") ++
  (tbillAggregateRows rows).map (kvOf "TBILL_AGGREGATE") ++
  (gsecAggregateRows rows).map (kvOf "GSEC_AGGREGATE")

/-- The columns of the `holdings` table that `load_holdings_data` reads. -/
structure HCore where
  isin_assigned : String
  name_final : String
  instrument_name : String
  market_value : Rat
deriving DecidableEq, Repr

/-- Projection of a processed row to the columns `load_holdings_data`
reads. -/
def holdingsCore (p : PRow) : HCore :=
  { isin_assigned := p.isin_assigned, name_final := p.name_final,
    instrument_name := p.instrument_name, market_value := p.market_value }

/-- `load_holdings_data` over the stored rows: filter out the synthetic
cash identifier and identifiers shorter than 12, group by
`isin_assigned` in ascending key order, sum the market values, and take a
representative row's `name_final or instrument_name or ''` as the display
name (`parse_isin` succeeds on every surviving key, whose length is at
least 12). -/
def loadHoldingsCore (hs : List HCore) : List Item :=
  let elig := hs.filter (fun r =>
    decide (r.isin_assigned ≠ "IN9999999999") && decide (12 ≤ pyLen r.isin_assigned))
  (sortByB strLeB (keyOrder (fun r => r.isin_assigned) elig)).map (fun k =>
    let grp := elig.filter (fun r => r.isin_assigned = k)
    let nf := match grp with
      | [] => ""
      | r :: _ =>
        if r.name_final ≠ "" then r.name_final
        else if r.instrument_name ≠ "" then r.instrument_name else ""
    { isin := k, name := nf, mv := (grp.map (·.market_value)).sum })

/-- `load_holdings_data` applied to the processed rows landed in the
database. -/
def loadHoldingsData (rows : List PRow) : List Item :=
  loadHoldingsCore (rows.map holdingsCore)

/-- ASCII digit characters. -/
def isDigitChar (c : Char) : Bool := decide (48 ≤ c.toNat) && decide (c.toNat ≤ 57)

/-- Numeric value of a digit string, most significant first. -/
def digitsVal : List Char → Nat
  | [] => 0
  | c :: cs => (c.toNat - 48) * 10 ^ cs.length + digitsVal cs

/-- The serial component read as a number. -/
def serialNumVal (s : String) : Nat := digitsVal s.data

/-- The canonical-member property of one corporate-action group, as the
spec states it: the row belongs to a group with exactly one canonical
(`is_target`) member; the canonical member has action `TARGET` and the
numerically highest serial; every member shares its base prefix and carries
its identifier and name as the mapped values, non-canonical members with
action `MAP`. -/
def caCanonicalSpec (r : RRow) : Prop :=
  ∃ out : List RRow, r ∈ out ∧
    (∃! t, t ∈ out ∧ t.is_target = true) ∧
    ∀ t ∈ out, t.is_target = true →
      t.action = "TARGET" ∧
      ∀ x ∈ out, x.category = "CORPORATE_ACTION" ∧
        base9 x.isin_original = base9 t.isin_original ∧
        serialNumVal (serialOf x.isin_original) ≤ serialNumVal (serialOf t.isin_original) ∧
        x.isin_mapped = t.isin_original ∧ x.name_mapped = t.name_original ∧
        (x.is_target = false → x.action = "MAP")

/-!
## Theorems
-/

/-- C4: `assign_isin` returns any string that starts with `IN` and has length
at least 12 unchanged, and returns the fixed synthetic cash identifier
`IN9999999999` for every other string, including the empty string. -/
theorem c4_identifier_assigner (s instrumentName : String) :
    (strStarts s "IN" = true → 12 ≤ pyLen s → assignIsin s instrumentName = s) ∧
    (strStarts s "IN" = false ∨ pyLen s < 12 → assignIsin s instrumentName = ISIN_OTHER) := by
  constructor
  · intro hpre hlen
    have hne : s ≠ "" := by
      intro h
      subst h
      simp [strStarts, List.isPrefixOf] at hpre
    simp [assignIsin, isValidIsin, hne, hpre, hlen]
  · intro h
    have hinvalid : isValidIsin s = false := by
      by_cases hne : s = ""
      · simp [isValidIsin, hne]
      · rcases h with h | h
        · simp [isValidIsin, hne, h]
        · simp [isValidIsin, hne, Nat.not_le.mpr h]
    simp [assignIsin, hinvalid]

/-- Witness for C4 at concrete inputs: a valid 12-character identifier is
returned unchanged, and a short string falls to the synthetic code. -/
theorem c4_identifier_assigner_witness :
    assignIsin "INE000000010" "" = "INE000000010" ∧ assignIsin "TREPS" "" = ISIN_OTHER :=
  ⟨(c4_identifier_assigner "INE000000010" "").1 (by decide) (by decide),
   (c4_identifier_assigner "TREPS" "").2 (Or.inr (by decide))⟩

/-- C6 (amended): the section-header skip of `is_aggregation_row` is guarded
by the identifier cell failing the *exactly-12-character* shape (lowercased,
stripped, starting with `in`): for identifiers of that shape the function
reduces to the branches that do not mention section headers.  The source
guard is `len != 12`, not `len >= 12`, so validity in the `is_valid_isin`
sense (length ≥ 12) does not disable the section-header skip. -/
theorem c6_section_header_guard (name isin row : String)
    (h1 : strStarts (pyStrip (pyLower isin)) "in" = true)
    (h2 : pyLen (pyStrip (pyLower isin)) = 12) :
    isAggregationRow name isin row =
      (skipPatternHit (pyStrip (pyLower name)) (pyStrip (pyLower isin)) ||
       exactTotalHit (pyStrip (pyLower name)) (pyStrip (pyLower isin)) ||
       rowTotalHit (if row ≠ "" then pyLower row else "")) := by
  have hguard : sectionGuard (pyStrip (pyLower isin)) = false := by
    simp [sectionGuard, h1, h2]
  simp [isAggregationRow, hguard, Bool.or_assoc]

/-- Witness for C6 (amended) at a 12-character identifier: a row whose name is
the section header `Treasury Bills` is not skipped. -/
theorem c6_section_header_guard_witness :
    strStarts (pyStrip (pyLower "INE000000010")) "in" = true ∧
    isAggregationRow "Treasury Bills" "INE000000010" "" = false :=
  ⟨by decide, by
    rw [c6_section_header_guard "Treasury Bills" "INE000000010" "" (by decide) (by decide)]
    decide⟩

/-- Counterexample to C6 as stated: `INE0000000105` is a valid identifier by
`is_valid_isin` (starts with `IN`, length 13 ≥ 12), yet a row bearing it with
name `Government Securities` is skipped, and the skip is due solely to the
section-header branch — every other branch of `is_aggregation_row` is false
on this row. -/
theorem c6_counterexample :
    isValidIsin "INE0000000105" = true ∧
    isAggregationRow "Government Securities" "INE0000000105" "" = true ∧
    skipPatternHit (pyStrip (pyLower "Government Securities"))
      (pyStrip (pyLower "INE0000000105")) = false ∧
    exactTotalHit (pyStrip (pyLower "Government Securities"))
      (pyStrip (pyLower "INE0000000105")) = false ∧
    rowTotalHit "" = false := by
  refine ⟨by decide, by decide, by decide, by decide, by decide⟩

/-- C9: the synthetic cash identifier is itself valid, so `assign_isin` is
idempotent and its output always satisfies `is_valid_isin`. -/
theorem c9_assign_isin_idempotent (s n1 n2 : String) :
    isValidIsin (assignIsin s n1) = true ∧
    assignIsin (assignIsin s n1) n2 = assignIsin s n1 := by
  have hother : isValidIsin ISIN_OTHER = true := by decide
  by_cases h : isValidIsin s = true
  · refine ⟨by simpa [assignIsin, h] using h, ?_⟩
    simp [assignIsin, h]
  · have h' : isValidIsin s = false := by simpa using h
    refine ⟨by simp [assignIsin, h', hother], ?_⟩
    simp [assignIsin, h', hother]


theorem cellAt_ok_of_lt {row : List Cell} {i : Nat} (h : i < row.length) :
    ∃ c, cellAt row i = Except.ok c := by
  unfold cellAt
  rw [List.get?_eq_get h]
  exact ⟨_, rfl⟩

theorem grandTotalRowCheck_isOk (mvCol : Option Nat) (row : List Cell)
    (h0 : 0 < row.length) (hc : ∀ c, mvCol = some c → c < row.length) :
    ∃ o, grandTotalRowCheck mvCol row = Except.ok o := by
  obtain ⟨c0, hc0⟩ := cellAt_ok_of_lt h0
  unfold grandTotalRowCheck
  rw [hc0]
  cases hmv : mvCol with
  | none =>
    repeat' (first | exact ⟨_, rfl⟩ | split)
    all_goals try exact ⟨_, rfl⟩
    all_goals try (first | (split_ifs at * <;> simp_all) | simp_all)
    all_goals
      (rcases hscan :
          (if strContains (pyLower (rowJoinText row)) "total net assets" = true
           then largeCellScan row else none) with _ | v <;>
        (try simp only [hscan]) <;> (try split) <;> exact ⟨_, rfl⟩)
  | some c =>
    obtain ⟨cc, hcc⟩ := cellAt_ok_of_lt (hc c hmv)
    simp only [hcc]
    repeat' (first | exact ⟨_, rfl⟩ | split)
    all_goals try exact ⟨_, rfl⟩
    all_goals try
      (rcases hscan :
          (if strContains (pyLower (rowJoinText row)) "total net assets" = true
           then largeCellScan row else none) with _ | v <;>
        (try simp only [hscan]) <;> (try split) <;> exact ⟨_, rfl⟩)
    all_goals first
      | (split_ifs at * <;> simp_all)
      | simp_all

theorem findGrandTotalAux_isOk (mvCol : Option Nat) :
    ∀ (l : List (List Cell)) (idx : Nat),
    (∀ row ∈ l, 0 < row.length ∧ ∀ c, mvCol = some c → c < row.length) →
    ∃ o, findGrandTotalAux mvCol idx l = Except.ok o
  | [], _, _ => ⟨none, rfl⟩
  | row :: rest, idx, h => by
    obtain ⟨o, ho⟩ := grandTotalRowCheck_isOk mvCol row (h row (by simp)).1 (h row (by simp)).2
    cases o with
    | some v =>
      exact ⟨some (idx + 1, v), by simp [findGrandTotalAux, ho]⟩
    | none =>
      obtain ⟨o2, ho2⟩ := findGrandTotalAux_isOk mvCol rest (idx + 1)
        (fun r hr => h r (by simp [hr]))
      exact ⟨o2, by simp [findGrandTotalAux, ho, ho2]⟩

theorem findGrandTotalAux_some (mvCol : Option Nat) :
    ∀ (l : List (List Cell)) (idx i : Nat) (v : Rat),
    findGrandTotalAux mvCol idx l = Except.ok (some (i, v)) →
    ∃ k, k < l.length ∧ i = idx + k + 1 ∧
      grandTotalRowCheck mvCol (l.getD k []) = Except.ok (some v) ∧
      ∀ j, j < k → grandTotalRowCheck mvCol (l.getD j []) = Except.ok none
  | [], idx, i, v, h => by simp [findGrandTotalAux] at h
  | row :: rest, idx, i, v, h => by
    rw [findGrandTotalAux] at h
    cases hrc : grandTotalRowCheck mvCol row with
    | error e => rw [hrc] at h; exact absurd h (by simp)
    | ok o =>
      rw [hrc] at h
      cases o with
      | some v0 =>
        simp only [Except.ok.injEq, Option.some.injEq, Prod.mk.injEq] at h
        obtain ⟨hi, hv⟩ := h
        refine ⟨0, by simp, by omega, ?_, by omega⟩
        simpa [hv] using hrc
      | none =>
        simp only at h
        obtain ⟨k, hk, hik, hck, hprev⟩ := findGrandTotalAux_some mvCol rest (idx + 1) i v h
        refine ⟨k + 1, by simpa using Nat.succ_lt_succ hk, by omega, by simpa using hck, ?_⟩
        intro j hj
        cases j with
        | zero => simpa using hrc
        | succ j0 => simpa using hprev j0 (by omega)

theorem findGrandTotalAux_none (mvCol : Option Nat) :
    ∀ (l : List (List Cell)) (idx : Nat),
    findGrandTotalAux mvCol idx l = Except.ok none →
    ∀ j, j < l.length → grandTotalRowCheck mvCol (l.getD j []) = Except.ok none
  | [], _, _, j, hj => by simp at hj
  | row :: rest, idx, h, j, hj => by
    rw [findGrandTotalAux] at h
    cases hrc : grandTotalRowCheck mvCol row with
    | error e => rw [hrc] at h; exact absurd h (by simp)
    | ok o =>
      rw [hrc] at h
      cases o with
      | some v0 => exact absurd h (by simp)
      | none =>
        cases j with
        | zero => simpa using hrc
        | succ j0 =>
          simpa using findGrandTotalAux_none mvCol rest (idx + 1) h j0 (by simpa using hj)

/-- C7 (amended). -/
theorem c7_grand_total_locator (df : List (List Cell)) (mvCol : Option Nat)
    (hin : ∀ row ∈ df, 0 < row.length ∧ ∀ c, mvCol = some c → c < row.length) :
    (∃ o, findGrandTotal df mvCol = Except.ok o) ∧
    (∀ i v, findGrandTotal df mvCol = Except.ok (some (i, v)) →
      1 ≤ i ∧ i - 1 < df.length ∧
      grandTotalRowCheck mvCol (df.getD (i - 1) []) = Except.ok (some v) ∧
      ∀ j, j < i - 1 → grandTotalRowCheck mvCol (df.getD j []) = Except.ok none) ∧
    (findGrandTotal df mvCol = Except.ok none →
      ∀ j, j < df.length → grandTotalRowCheck mvCol (df.getD j []) = Except.ok none) := by
  refine ⟨findGrandTotalAux_isOk mvCol df 0 hin, ?_, ?_⟩
  · intro i v h
    obtain ⟨k, hk, hik, hck, hprev⟩ := findGrandTotalAux_some mvCol df 0 i v h
    have hi : i - 1 = k := by omega
    exact ⟨by omega, by omega, by rwa [hi], fun j hj => hprev j (by omega)⟩
  · intro h j hj
    exact findGrandTotalAux_none mvCol df 0 h j hj

/-- Witness for C7 (amended). -/
theorem c7_grand_total_locator_witness :
    ∃ o, findGrandTotal [[strCell "Grand Total", numCell 350 "350"]] (some 1) = Except.ok o :=
  (c7_grand_total_locator [[strCell "Grand Total", numCell 350 "350"]] (some 1)
    (by
      intro row hrow
      simp only [List.mem_singleton] at hrow
      subst hrow
      refine ⟨by simp, ?_⟩
      intro c hc
      cases hc
      simp)).1

/-- Counterexample to C7 as stated. -/
theorem c7_counterexample :
    findGrandTotal [[strCell "Grand Total"]] (some 5) = Except.error PdErr.indexError := by
  rfl

theorem findHeaderRow_some_of_any :
    ∀ (l : List (List Cell)) (idx : Nat), l.any isHeaderRow = true →
    ∃ hIdx header, findHeaderRow idx l = some (hIdx, header) ∧ header ∈ l ∧
      isHeaderRow header = true
  | [], _, h => by simp at h
  | row :: rest, idx, h => by
    by_cases hr : isHeaderRow row
    · exact ⟨idx, row, by simp [findHeaderRow, hr], by simp, hr⟩
    · have h' : rest.any isHeaderRow = true := by
        simpa [hr] using h
      obtain ⟨hIdx, header, h1, h2, h3⟩ := findHeaderRow_some_of_any rest (idx + 1) h'
      exact ⟨hIdx, header, by simp [findHeaderRow, hr, h1], by simp [h2], h3⟩

theorem findHeaderRow_mem :
    ∀ (l : List (List Cell)) (idx hIdx : Nat) (header : List Cell),
    findHeaderRow idx l = some (hIdx, header) → header ∈ l ∧ isHeaderRow header = true
  | [], _, _, _, h => by simp [findHeaderRow] at h
  | row :: rest, idx, hIdx, header, h => by
    rw [findHeaderRow] at h
    by_cases hr : isHeaderRow row
    · rw [if_pos hr] at h
      simp only [Option.some.injEq, Prod.mk.injEq] at h
      obtain ⟨h1, h2⟩ := h
      subst h2
      exact ⟨by simp, hr⟩
    · rw [if_neg hr] at h
      obtain ⟨h1, h2⟩ := findHeaderRow_mem rest (idx + 1) hIdx header h
      exact ⟨by simp [h1], h2⟩

theorem classifyStep_keeps_isin {acc : Option Nat × Option Nat × Option Nat × Option Nat}
    {i : Nat} {c : Cell} (h : acc.1.isSome = true) :
    (classifyStep acc i c).1.isSome = true := by
  obtain ⟨ic, nc, mc, qc⟩ := acc
  cases ic with
  | none => simp at h
  | some j =>
    simp only [classifyStep]
    repeat' split
    all_goals simp_all

theorem classifyStep_sets_isin {acc : Option Nat × Option Nat × Option Nat × Option Nat}
    {i : Nat} {c : Cell} (h : strContains (cellLowerText c) "isin" = true) :
    (classifyStep acc i c).1.isSome = true := by
  obtain ⟨ic, nc, mc, qc⟩ := acc
  cases hic : ic with
  | some j => exact classifyStep_keeps_isin (by simp [hic])
  | none =>
    simp only [classifyStep]
    simp [h]

theorem classifyAux_isin_isSome :
    ∀ (l : List Cell) (i : Nat) (acc : Option Nat × Option Nat × Option Nat × Option Nat),
    (acc.1.isSome = true ∨ ∃ c ∈ l, strContains (cellLowerText c) "isin" = true) →
    (classifyAux acc i l).1.isSome = true
  | [], _, acc, h => by
    rcases h with h | ⟨c, hc, _⟩
    · simpa [classifyAux] using h
    · simp at hc
  | c :: rest, i, acc, h => by
    rw [classifyAux]
    refine classifyAux_isin_isSome rest (i + 1) _ ?_
    rcases h with h | ⟨c', hc', hcontains⟩
    · exact Or.inl (classifyStep_keeps_isin h)
    · rcases List.mem_cons.mp hc' with rfl | hmem
      · exact Or.inl (classifyStep_sets_isin hcontains)
      · exact Or.inr ⟨c', hmem, hcontains⟩

theorem classifyStep_mvCol_bound {acc : Option Nat × Option Nat × Option Nat × Option Nat}
    {i : Nat} {c : Cell} {j : Nat} (h : (classifyStep acc i c).2.2.1 = some j) :
    acc.2.2.1 = some j ∨ j = i := by
  obtain ⟨ic, nc, mc, qc⟩ := acc
  simp only [classifyStep] at h
  repeat' split at h
  all_goals simp_all

theorem classifyAux_mvCol_bound :
    ∀ (l : List Cell) (i : Nat) (acc : Option Nat × Option Nat × Option Nat × Option Nat)
      (j : Nat),
    (classifyAux acc i l).2.2.1 = some j →
    acc.2.2.1 = some j ∨ (i ≤ j ∧ j < i + l.length)
  | [], _, acc, j, h => by simpa [classifyAux] using Or.inl h
  | c :: rest, i, acc, j, h => by
    rw [classifyAux] at h
    rcases classifyAux_mvCol_bound rest (i + 1) _ j h with h1 | h1
    · rcases classifyStep_mvCol_bound h1 with h2 | h2
      · exact Or.inl h2
      · right
        constructor
        · omega
        · simp
          omega
    · obtain ⟨ha, hb⟩ := h1
      right
      constructor
      · omega
      · simp only [List.length_cons]
        omega

/-- C8 (amended). -/
theorem c8_schema_detector (df : List (List Cell)) (w : Nat)
    (hw : ∀ row ∈ df, row.length = w) :
    ((∃ s, detectSchema df = Except.ok s) ↔ df.any isHeaderRow = true) ∧
    (∀ s, detectSchema df = Except.ok s → s.isin_col.isSome = true) := by
  constructor
  · constructor
    · rintro ⟨s, hs⟩
      unfold detectSchema at hs
      cases hfh : findHeaderRow 0 df with
      | none => rw [hfh] at hs; exact absurd hs (by simp)
      | some p =>
        obtain ⟨hmem, hhr⟩ := findHeaderRow_mem df 0 p.1 p.2 (by simpa using hfh)
        exact List.any_eq_true.mpr ⟨p.2, hmem, hhr⟩
    · intro hany
      obtain ⟨hIdx, header, hfh, hmem, hhr⟩ := findHeaderRow_some_of_any df 0 hany
      obtain ⟨c, hcmem, hcisin⟩ := List.any_eq_true.mp hhr
      have hlen : header.length = w := hw header hmem
      have hpos : 0 < w := by
        have := List.length_pos.mpr (List.ne_nil_of_mem hcmem)
        omega
      obtain ⟨o, ho⟩ := findGrandTotalAux_isOk ((classifyColumns header).2.2.1) df 0
        (by
          intro row hrow
          refine ⟨by rw [hw row hrow]; exact hpos, ?_⟩
          intro cc hcc
          rcases classifyAux_mvCol_bound header 0 (none, none, none, none) cc hcc with h1 | h1
          · simp at h1
          · rw [hw row hrow]
            omega)
      have ho' : findGrandTotal df ((classifyColumns header).2.2.1) = Except.ok o := ho
      unfold detectSchema
      rw [hfh]
      simp only
      rw [ho']
      exact ⟨_, rfl⟩
  · intro s hs
    unfold detectSchema at hs
    cases hfh : findHeaderRow 0 df with
    | none => rw [hfh] at hs; exact absurd hs (by simp)
    | some p =>
      obtain ⟨hIdx, header⟩ := p
      rw [hfh] at hs
      simp only at hs
      obtain ⟨hmem, hhr⟩ := findHeaderRow_mem df 0 hIdx header hfh
      obtain ⟨c, hcmem, hcisin⟩ := List.any_eq_true.mp hhr
      cases hfg : findGrandTotal df ((classifyColumns header).2.2.1) with
      | error e => rw [hfg] at hs; exact absurd hs (by simp)
      | ok gt =>
        rw [hfg] at hs
        simp only [Except.ok.injEq] at hs
        subst hs
        exact classifyAux_isin_isSome header 0 (none, none, none, none)
          (Or.inr ⟨c, hcmem, hcisin⟩)

theorem processRowsAux_mem (df : List (List Cell)) (schema : Schema)
    (mm : List (String × NsdlEntry)) (vm : List (String × VEntry)) :
    ∀ (l : List (List Cell)) (idx : Nat) (p : PRow),
    p ∈ processRowsAux df schema mm vm idx l →
    ∃ k, k < l.length ∧ (∀ j, j ≤ k → stopRowHit (l.getD j []) = false) ∧
      p = buildPRow mm vm (cellStrStripped (cellAtD (l.getD k []) schema.isin_col))
            (cellStrStripped (cellAtD (l.getD k []) schema.name_col))
            (guardedFloat (cellAtD (l.getD k []) schema.market_value_col))
            (guardedFloat (cellAtD (l.getD k []) schema.quantity_col))
  | [], idx, p, hp => by simp [processRowsAux] at hp
  | row :: rest, idx, p, hp => by
    rw [processRowsAux] at hp
    by_cases hstop : stopRowHit row = true
    · rw [if_pos hstop] at hp
      simp at hp
    · rw [if_neg hstop] at hp
      have hstep : ∀ (hq : p ∈ processRowsAux df schema mm vm (idx + 1) rest), _ :=
        fun hq => processRowsAux_mem df schema mm vm rest (idx + 1) p hq
      by_cases h1 : isAggregationRow (cellStrStripped (cellAtD row schema.name_col))
          (cellStrStripped (cellAtD row schema.isin_col)) (rowJoinText row) = true
      · rw [if_pos h1] at hp
        obtain ⟨k, hk, hnostop, hbuild⟩ := hstep hp
        refine ⟨k + 1, by simpa using Nat.succ_lt_succ hk, ?_, by simpa using hbuild⟩
        intro j hj
        cases j with
        | zero => simpa using hstop
        | succ j0 => simpa using hnostop j0 (by omega)
      · rw [if_neg h1] at hp
        by_cases h2 : (pyStrip (pyLower (cellStrStripped (cellAtD row schema.name_col))) =
              "reverse repo" && !(isValidIsin (cellStrStripped (cellAtD row schema.isin_col))) &&
              reverseRepoSubtotal schema (df.drop (idx + 1))) = true
        · rw [if_pos h2] at hp
          obtain ⟨k, hk, hnostop, hbuild⟩ := hstep hp
          refine ⟨k + 1, by simpa using Nat.succ_lt_succ hk, ?_, by simpa using hbuild⟩
          intro j hj
          cases j with
          | zero => simpa using hstop
          | succ j0 => simpa using hnostop j0 (by omega)
        · rw [if_neg h2] at hp
          by_cases h3 : guardedFloat (cellAtD row schema.market_value_col) = 0
          · rw [if_pos h3] at hp
            obtain ⟨k, hk, hnostop, hbuild⟩ := hstep hp
            refine ⟨k + 1, by simpa using Nat.succ_lt_succ hk, ?_, by simpa using hbuild⟩
            intro j hj
            cases j with
            | zero => simpa using hstop
            | succ j0 => simpa using hnostop j0 (by omega)
          · rw [if_neg h3] at hp
            rcases List.mem_cons.mp hp with rfl | hp'
            · refine ⟨0, by simp, ?_, by simp⟩
              intro j hj
              interval_cases j
              simpa using hstop
            · obtain ⟨k, hk, hnostop, hbuild⟩ := hstep hp'
              refine ⟨k + 1, by simpa using Nat.succ_lt_succ hk, ?_, by simpa using hbuild⟩
              intro j hj
              cases j with
              | zero => simpa using hstop
              | succ j0 => simpa using hnostop j0 (by omega)

/-- C5 (amended). -/
theorem c5_row_extractor_stop (df : List (List Cell)) (schema : Schema)
    (mm : List (String × NsdlEntry)) (vm : List (String × VEntry)) (r : Nat)
    (h0 : schema.data_start_row - 1 ≤ r) (hr : r < df.length)
    (hstop : stopRowHit (df.getD r []) = true) :
    ∀ p ∈ (processSheet df schema mm vm).1,
      ∃ i, schema.data_start_row - 1 ≤ i ∧ i < r ∧ stopRowHit (df.getD i []) = false ∧
        p = buildPRow mm vm
          (cellStrStripped (cellAtD (df.getD i []) schema.isin_col))
          (cellStrStripped (cellAtD (df.getD i []) schema.name_col))
          (guardedFloat (cellAtD (df.getD i []) schema.market_value_col))
          (guardedFloat (cellAtD (df.getD i []) schema.quantity_col)) := by
  intro p hp
  have hgetD : ∀ k, (df.drop (schema.data_start_row - 1)).getD k [] =
      df.getD (schema.data_start_row - 1 + k) [] := by
    intro k
    simp [List.getD, List.get?_drop]
  obtain ⟨k, hk, hnostop, hbuild⟩ :=
    processRowsAux_mem df schema mm vm (df.drop (schema.data_start_row - 1))
      (schema.data_start_row - 1) p hp
  have hklt : schema.data_start_row - 1 + k < r := by
    by_contra hge
    have : r - (schema.data_start_row - 1) ≤ k := by omega
    have hcontra := hnostop (r - (schema.data_start_row - 1)) this
    rw [hgetD, show schema.data_start_row - 1 + (r - (schema.data_start_row - 1)) = r
      from by omega] at hcontra
    have hstop' : stopRowHit (df[r]?.getD []) = true := by simpa [List.getD] using hstop
    simp [hstop'] at hcontra
  refine ⟨schema.data_start_row - 1 + k, by omega, hklt, ?_, ?_⟩
  · have := hnostop k (le_refl k)
    rwa [hgetD] at this
  · rw [hbuild]
    rw [hgetD]

/-- Witness for C5 (amended). -/
theorem c5_row_extractor_stop_witness :
    ∃ i, ({ data_start_row := 1, isin_col := 0, name_col := 0, market_value_col := 1,
            quantity_col := 1 } : Schema).data_start_row - 1 ≤ i ∧ i < 1 ∧
      stopRowHit ([[strCell "INE000000010", numCell 100 "100"],
          [strCell "Grand Total", numCell 100 "100"]].getD i []) = false ∧
      buildPRow [] [] "INE000000010" "INE000000010" 100 100 = buildPRow [] []
        (cellStrStripped (cellAtD ([[strCell "INE000000010", numCell 100 "100"],
            [strCell "Grand Total", numCell 100 "100"]].getD i [])
          ({ data_start_row := 1, isin_col := 0, name_col := 0, market_value_col := 1,
             quantity_col := 1 } : Schema).isin_col))
        (cellStrStripped (cellAtD ([[strCell "INE000000010", numCell 100 "100"],
            [strCell "Grand Total", numCell 100 "100"]].getD i [])
          ({ data_start_row := 1, isin_col := 0, name_col := 0, market_value_col := 1,
             quantity_col := 1 } : Schema).name_col))
        (guardedFloat (cellAtD ([[strCell "INE000000010", numCell 100 "100"],
            [strCell "Grand Total", numCell 100 "100"]].getD i [])
          ({ data_start_row := 1, isin_col := 0, name_col := 0, market_value_col := 1,
             quantity_col := 1 } : Schema).market_value_col))
        (guardedFloat (cellAtD ([[strCell "INE000000010", numCell 100 "100"],
            [strCell "Grand Total", numCell 100 "100"]].getD i [])
          ({ data_start_row := 1, isin_col := 0, name_col := 0, market_value_col := 1,
             quantity_col := 1 } : Schema).quantity_col)) := by
  have h := c5_row_extractor_stop
    [[strCell "INE000000010", numCell 100 "100"], [strCell "Grand Total", numCell 100 "100"]]
    { data_start_row := 1, isin_col := 0, name_col := 0, market_value_col := 1,
      quantity_col := 1 } [] [] 1 (by decide) (by decide) (by decide)
    (buildPRow [] [] "INE000000010" "INE000000010" 100 100) (by decide)
  obtain ⟨i, h1, h2, h3, h4⟩ := h
  exact ⟨i, h1, h2, h3, by rw [h4]⟩

/-- Counterexample to C5 as stated. -/
theorem c5_counterexample :
    stopRowHit [strCell "Grand Total", numCell 350 "350"] = true ∧
    stopRowHit [strCell "AAA", blankCell] = false ∧
    (processSheet [[strCell "AAA", blankCell], [strCell "Grand Total", numCell 350 "350"]]
      { data_start_row := 1, isin_col := 0, name_col := 0, market_value_col := 1,
        quantity_col := 1 } [] []).1 = [] := by
  refine ⟨by decide, by decide, by decide⟩

/-- Witness for C8 (amended) at a concrete two-row sheet with an `ISIN`
header: detection succeeds. -/
theorem c8_schema_detector_witness :
    ∃ s, detectSchema [[strCell "ISIN", strCell "Market Value"],
        [strCell "INE000000010", numCell 100 "100"]] = Except.ok s :=
  ((c8_schema_detector
      [[strCell "ISIN", strCell "Market Value"], [strCell "INE000000010", numCell 100 "100"]] 2
      (by intro row hrow; fin_cases hrow <;> rfl)).1).mpr (by decide)

/-- Counterexample to C8 as stated: a sheet with an `isin`-bearing header but
no row whose identifier column starts with `IN` yields no error — the
returned `Schema` simply carries `data_start_row = None` (unusable, failing
only downstream), so an unresolved data-start row is not a terminal error of
`SchemaDetector`. -/
theorem c8_counterexample :
    detectSchema [[strCell "ISIN", strCell "Market Value"]] =
      Except.ok { data_start_row := none, isin_col := some 0, name_col := none,
                  market_value_col := some 1, quantity_col := none,
                  grand_total_row := none, grand_total := none } := by
  rfl

/-!
### Sorting and grouping lemmas
-/

theorem insertLe_perm {α : Type} (le : α → α → Bool) (x : α) :
    ∀ l : List α, (insertLe le x l).Perm (x :: l)
  | [] => List.Perm.refl _
  | y :: ys => by
    rw [insertLe]
    by_cases h : le x y
    · rw [if_pos h]
    · rw [if_neg h]
      exact ((insertLe_perm le x ys).cons y).trans (List.Perm.swap x y ys)

theorem sortByB_perm {α : Type} (le : α → α → Bool) :
    ∀ l : List α, (sortByB le l).Perm l
  | [] => List.Perm.refl _
  | x :: xs =>
    (insertLe_perm le x (sortByB le xs)).trans ((sortByB_perm le xs).cons x)

theorem mem_sortByB {α : Type} {le : α → α → Bool} {x : α} {l : List α} :
    x ∈ sortByB le l ↔ x ∈ l :=
  (sortByB_perm le l).mem_iff

theorem pairwise_insertLe {α : Type} {le : α → α → Bool}
    (htot : ∀ a b, le a b = true ∨ le b a = true)
    (htrans : ∀ a b c, le a b = true → le b c = true → le a c = true) (x : α) :
    ∀ l : List α, l.Pairwise (fun a b => le a b = true) →
    (insertLe le x l).Pairwise (fun a b => le a b = true)
  | [], _ => by simp [insertLe]
  | y :: ys, hp => by
    rw [insertLe]
    obtain ⟨hy, hys⟩ := List.pairwise_cons.mp hp
    by_cases h : le x y = true
    · rw [if_pos h]
      refine List.pairwise_cons.mpr ⟨?_, hp⟩
      intro b hb
      rcases List.mem_cons.mp hb with rfl | hb'
      · exact h
      · exact htrans x y b h (hy b hb')
    · rw [if_neg h]
      have hyx : le y x = true := (htot x y).resolve_left h
      refine List.pairwise_cons.mpr ⟨?_, pairwise_insertLe htot htrans x ys hys⟩
      intro b hb
      rcases List.mem_cons.mp ((insertLe_perm le x ys).mem_iff.mp hb) with rfl | h1
      · exact hyx
      · exact hy b h1

theorem pairwise_sortByB {α : Type} {le : α → α → Bool}
    (htot : ∀ a b, le a b = true ∨ le b a = true)
    (htrans : ∀ a b c, le a b = true → le b c = true → le a c = true) :
    ∀ l : List α, (sortByB le l).Pairwise (fun a b => le a b = true)
  | [] => by simp [sortByB]
  | x :: xs => pairwise_insertLe htot htrans x _ (pairwise_sortByB htot htrans xs)

theorem getLastD_mem {α : Type} {l : List α} (d : α) (h : l ≠ []) : l.getLastD d ∈ l := by
  rw [List.getLastD_eq_getLast?, List.getLast?_eq_getLast l h]
  simpa using List.getLast_mem h

theorem getLastD_max {α : Type} {le : α → α → Bool}
    (htot : ∀ a b, le a b = true ∨ le b a = true) :
    ∀ (l : List α) (d : α), l.Pairwise (fun a b => le a b = true) →
    ∀ a ∈ l, le a (l.getLastD d) = true
  | [], _, _, a, ha => by simp at ha
  | [x], d, _, a, ha => by
    simp only [List.mem_singleton] at ha
    subst ha
    rcases htot a a with h | h <;> simpa [List.getLastD] using h
  | x :: y :: ys, d, hp, a, ha => by
    obtain ⟨hx, hrest⟩ := List.pairwise_cons.mp hp
    rw [List.getLastD_cons]
    rcases List.mem_cons.mp ha with rfl | ha'
    · have hmem : (y :: ys).getLastD a ∈ y :: ys := getLastD_mem a (by simp)
      exact hx _ hmem
    · exact getLastD_max htot (y :: ys) x hrest a ha'

theorem charListLe_total : ∀ a b : List Char, charListLe a b = true ∨ charListLe b a = true
  | [], _ => Or.inl rfl
  | _ :: _, [] => Or.inr rfl
  | a :: as, b :: bs => by
    by_cases h : a.toNat = b.toNat
    · rcases charListLe_total as bs with h1 | h1
      · exact Or.inl (by simp [charListLe, h, h1])
      · exact Or.inr (by simp [charListLe, h.symm, h1])
    · rcases Nat.lt_or_ge a.toNat b.toNat with h1 | h1
      · exact Or.inl (by simp [charListLe, h, h1])
      · have h2 : b.toNat < a.toNat := by omega
        exact Or.inr (by simp [charListLe, Ne.symm h, h2])

theorem charListLe_trans :
    ∀ a b c : List Char, charListLe a b = true → charListLe b c = true →
      charListLe a c = true
  | [], _, _, _, _ => rfl
  | a :: as, [], c, hab, _ => by simp [charListLe] at hab
  | a :: as, b :: bs, [], _, hbc => by simp [charListLe] at hbc
  | a :: as, b :: bs, c :: cs, hab, hbc => by
    rw [charListLe] at hab hbc ⊢
    by_cases h1 : a.toNat = b.toNat <;> by_cases h2 : b.toNat = c.toNat
    · rw [if_pos h1] at hab
      rw [if_pos h2] at hbc
      rw [if_pos (h1.trans h2)]
      exact charListLe_trans as bs cs hab hbc
    · rw [if_neg h2] at hbc
      rw [if_neg (h1 ▸ h2)]
      simpa [h1] using hbc
    · rw [if_neg h1] at hab
      rw [if_neg (h2 ▸ h1)]
      simpa [h2.symm] using hab
    · rw [if_neg h1] at hab
      rw [if_neg h2] at hbc
      simp only [decide_eq_true_eq] at hab hbc
      by_cases h3 : a.toNat = c.toNat
      · omega
      · rw [if_neg h3]
        simp only [decide_eq_true_eq]
        omega

theorem contains_iff_mem {l : List String} {s : String} : l.contains s = true ↔ s ∈ l := by
  simp [List.contains, List.elem_iff]

/-!
### Composition of engine steps
-/

theorem StepOk.nil (data : List Item) (pr : List String) : StepOk data pr pr [] where
  grow := fun _ hs => hs
  src := fun r hr => by simp at hr
  fresh := fun r hr => by simp at hr
  claimed := fun r hr => by simp at hr
  nodup := by simp
  prop := fun r hr => by simp at hr

theorem StepOk.trans {data : List Item} {pr1 pr2 pr3 : List String}
    {rows1 rows2 : List RRow} (h1 : StepOk data pr1 pr2 rows1)
    (h2 : StepOk data pr2 pr3 rows2) : StepOk data pr1 pr3 (rows1 ++ rows2) where
  grow := fun s hs => h2.grow s (h1.grow s hs)
  src := fun r hr => by
    rcases List.mem_append.mp hr with h | h
    · exact h1.src r h
    · exact h2.src r h
  fresh := fun r hr => by
    rcases List.mem_append.mp hr with h | h
    · exact h1.fresh r h
    · intro hmem
      exact h2.fresh r h (h1.grow _ hmem)
  claimed := fun r hr => by
    rcases List.mem_append.mp hr with h | h
    · exact h2.grow _ (h1.claimed r h)
    · exact h2.claimed r h
  nodup := by
    rw [List.map_append, List.nodup_append]
    refine ⟨h1.nodup, h2.nodup, ?_⟩
    intro s hs1 hs2
    obtain ⟨r1, hr1, hr1s⟩ := List.mem_map.mp hs1
    obtain ⟨r2, hr2, hr2s⟩ := List.mem_map.mp hs2
    exact h2.fresh r2 hr2 (hr2s ▸ hr1s ▸ h1.claimed r1 hr1)
  prop := fun r hr => by
    rcases List.mem_append.mp hr with h | h
    · exact h1.prop r h
    · exact h2.prop r h

theorem caRow_isin (ncut issuer : String) (newest it : Item) :
    (caRow ncut issuer newest it).isin_original = it.isin := rfl

theorem stepOk_caOut (data : List Item) (ncut issuer : String) (pr : List String)
    (b9items : List Item) (sorted : List Item) (newest : Item)
    (hprov : (processBase9Group ncut issuer pr b9items).1 =
      sorted.map (caRow ncut issuer newest))
    (hnewestmem : newest ∈ sorted)
    (hmax : ∀ a ∈ sorted,
      charListLe (serialOf a.isin).data (serialOf newest.isin).data = true)
    (hfresh : ∀ it ∈ sorted, it.isin ∉ pr)
    (hsrc : ∀ it ∈ sorted, it ∈ data)
    (hnodup : (sorted.map Item.isin).Nodup)
    (hb9 : ∀ i1 ∈ sorted, ∀ i2 ∈ sorted, base9 i1.isin = base9 i2.isin) :
    StepOk data pr (pr ++ sorted.map (·.isin)) (sorted.map (caRow ncut issuer newest)) := by
  have hinj : ∀ x ∈ sorted, ∀ y ∈ sorted, x.isin = y.isin → x = y := by
    intro x hx y hy hxy
    exact List.inj_on_of_nodup_map hnodup hx hy hxy
  have hgroupok : CAGroupOk (sorted.map (caRow ncut issuer newest)) := by
    constructor
    · refine ⟨caRow ncut issuer newest newest, ⟨List.mem_map.mpr ⟨newest, hnewestmem, rfl⟩, ?_⟩, ?_⟩
      · simp [caRow]
      · rintro t ⟨htmem, htarget⟩
        obtain ⟨it, hitmem, rfl⟩ := List.mem_map.mp htmem
        have : it.isin = newest.isin := by
          by_contra hne
          simp [caRow, hne] at htarget
        have : it = newest := hinj it hitmem newest hnewestmem this
        rw [this]
    · intro t htmem htarget
      obtain ⟨it', hit'mem, rfl⟩ := List.mem_map.mp htmem
      have heq' : it'.isin = newest.isin := by
        by_contra hne
        simp [caRow, hne] at htarget
      have hit'newest : it' = newest := hinj it' hit'mem newest hnewestmem heq'
      subst hit'newest
      constructor
      · simp [caRow]
      · intro x hxmem
        obtain ⟨it, hitmem, rfl⟩ := List.mem_map.mp hxmem
        refine ⟨rfl, ?_, rfl, rfl, rfl, ?_, ?_⟩
        · simpa [caRow] using hmax it hitmem
        · simpa [caRow] using hb9 it hitmem it' hit'mem
        · intro hnt
          have hne : ¬ it.isin = it'.isin := by
            intro h
            simp [caRow, h] at hnt
          simp [caRow, hne]
  refine { grow := ?_, src := ?_, fresh := ?_, claimed := ?_, nodup := ?_, prop := ?_ }
  · exact fun s hs => List.mem_append_left _ hs
  · intro r hr
    obtain ⟨it, hitmem, rfl⟩ := List.mem_map.mp hr
    exact ⟨it, hsrc it hitmem, rfl⟩
  · intro r hr
    obtain ⟨it, hitmem, rfl⟩ := List.mem_map.mp hr
    exact hfresh it hitmem
  · intro r hr
    obtain ⟨it, hitmem, rfl⟩ := List.mem_map.mp hr
    exact List.mem_append_right _ (List.mem_map.mpr ⟨it, hitmem, rfl⟩)
  · have hmapeq : (sorted.map (caRow ncut issuer newest)).map (·.isin_original) =
        sorted.map Item.isin := by
      rw [List.map_map]
      rfl
    rw [hmapeq]
    exact hnodup
  · intro r hr
    obtain ⟨it, hitmem, rfl⟩ := List.mem_map.mp hr
    refine ⟨?_, ?_, ?_, Or.inl rfl⟩
    · intro hact
      by_cases heq : it.isin = newest.isin
      · exfalso
        simp [caRow, heq] at hact
      · show ¬ (caRow ncut issuer newest it).isin_mapped =
          (caRow ncut issuer newest it).isin_original
        intro hx
        exact heq (by simpa [caRow] using hx.symm)
    · intro hcat
      exfalso
      rcases hcat with h | h
      · exact absurd (by simpa [caRow] using h) (by decide : ¬("CORPORATE_ACTION" : String) = "CD_AGGREGATE")
      · exact absurd (by simpa [caRow] using h) (by decide : ¬("CORPORATE_ACTION" : String) = "CP_AGGREGATE")
    · intro _
      exact ⟨ncut, issuer, pr, b9items, by rw [hprov]; exact List.mem_map.mpr ⟨it, hitmem, rfl⟩,
        by
          rw [hprov]
          intro x hx
          obtain ⟨it2, hit2mem, rfl⟩ := List.mem_map.mp hx
          exact ⟨it2, hsrc it2 hit2mem, rfl⟩,
        by rw [hprov]; exact hgroupok⟩

theorem stepOk_base9 (data : List Item) (ncut issuer : String) (pr : List String)
    (b9items : List Item) (hsub : b9items.Sublist data)
    (hnd : (data.map Item.isin).Nodup)
    (hb9 : ∀ i1 ∈ b9items, ∀ i2 ∈ b9items, base9 i1.isin = base9 i2.isin) :
    StepOk data pr (processBase9Group ncut issuer pr b9items).2
      (processBase9Group ncut issuer pr b9items).1 := by
  have hfsub : (b9items.filter (fun i => !(pr.contains i.isin))).Sublist b9items :=
    List.filter_sublist b9items
  cases hub : b9items.filter (fun i => !(pr.contains i.isin)) with
  | nil =>
    have h1 : processBase9Group ncut issuer pr b9items = ([], pr) := by
      simp only [processBase9Group, hub]
    rw [h1]
    exact StepOk.nil data pr
  | cons i0 tail =>
    cases tail with
    | nil =>
      have h1 : processBase9Group ncut issuer pr b9items = ([], pr) := by
        simp only [processBase9Group, hub]
      rw [h1]
      exact StepOk.nil data pr
    | cons i1 rest =>
      by_cases hsec : securityType i0.isin = "01"
      · have hout : processBase9Group ncut issuer pr b9items =
            ((sortByB (fun a b => charListLe (serialOf a.isin).data (serialOf b.isin).data)
                (i0 :: i1 :: rest)).map
              (caRow ncut issuer
                ((sortByB (fun a b => charListLe (serialOf a.isin).data (serialOf b.isin).data)
                    (i0 :: i1 :: rest)).getLastD i0)),
             pr ++ (sortByB (fun a b => charListLe (serialOf a.isin).data (serialOf b.isin).data)
                (i0 :: i1 :: rest)).map (·.isin)) := by
          simp only [processBase9Group, hub]
          rw [if_pos hsec]
        have hubsub2 : (i0 :: i1 :: rest).Sublist b9items := hub ▸ hfsub
        have htot : ∀ a b : Item,
            charListLe (serialOf a.isin).data (serialOf b.isin).data = true ∨
            charListLe (serialOf b.isin).data (serialOf a.isin).data = true :=
          fun a b => charListLe_total _ _
        have htrans : ∀ a b c : Item,
            charListLe (serialOf a.isin).data (serialOf b.isin).data = true →
            charListLe (serialOf b.isin).data (serialOf c.isin).data = true →
            charListLe (serialOf a.isin).data (serialOf c.isin).data = true :=
          fun a b c => charListLe_trans _ _ _
        have hperm := sortByB_perm
          (fun a b : Item => charListLe (serialOf a.isin).data (serialOf b.isin).data)
          (i0 :: i1 :: rest)
        have hsortedne : (sortByB
            (fun a b : Item => charListLe (serialOf a.isin).data (serialOf b.isin).data)
            (i0 :: i1 :: rest)) ≠ [] := by
          intro hnil
          have := hperm.length_eq
          rw [hnil] at this
          simp at this
        rw [hout]
        refine stepOk_caOut data ncut issuer pr b9items _ _ (by rw [hout]) ?_ ?_ ?_ ?_ ?_ ?_
        · exact getLastD_mem i0 hsortedne
        · exact getLastD_max htot _ i0 (pairwise_sortByB htot htrans _)
        · intro it hitmem
          have hit_ub : it ∈ i0 :: i1 :: rest := hperm.subset hitmem
          have hfil : it ∈ b9items.filter (fun i => !(pr.contains i.isin)) := hub ▸ hit_ub
          have hcond := (List.mem_filter.mp hfil).2
          intro hmem
          rw [Bool.not_eq_true', ← Bool.not_eq_true] at hcond
          exact hcond (contains_iff_mem.mpr hmem)
        · intro it hitmem
          exact (hubsub2.trans hsub).subset (hperm.subset hitmem)
        · exact (List.Perm.nodup_iff (hperm.map Item.isin)).mpr
            (List.Nodup.sublist ((hubsub2.trans hsub).map Item.isin) hnd)
        · intro x hx y hy
          exact hb9 x (hubsub2.subset (hperm.subset hx)) y (hubsub2.subset (hperm.subset hy))
      · have h1 : processBase9Group ncut issuer pr b9items = ([], pr) := by
          simp only [processBase9Group, hub]
          rw [if_neg hsec]
        rw [h1]
        exact StepOk.nil data pr

theorem stepOk_foldl {β : Type} {data : List Item}
    (nf : List String → β → List RRow × List String) :
    ∀ (keys : List β),
    (∀ pr b, b ∈ keys → StepOk data pr (nf pr b).2 (nf pr b).1) →
    ∀ (rows0 : List RRow) (pr0 : List String),
    ∃ extra prF,
      keys.foldl (fun acc b => (acc.1 ++ (nf acc.2 b).1, (nf acc.2 b).2)) (rows0, pr0) =
        (rows0 ++ extra, prF) ∧ StepOk data pr0 prF extra
  | [], _, rows0, pr0 => ⟨[], pr0, by simp, StepOk.nil data pr0⟩
  | b :: ks, hstep, rows0, pr0 => by
    obtain ⟨extra2, prF, hfold, hok2⟩ := stepOk_foldl nf ks
      (fun pr b' hb' => hstep pr b' (by simp [hb']))
      (rows0 ++ (nf pr0 b).1) (nf pr0 b).2
    refine ⟨(nf pr0 b).1 ++ extra2, prF, ?_, (hstep pr0 b (by simp)).trans hok2⟩
    rw [List.foldl_cons]
    simpa [List.append_assoc] using hfold

theorem stepOk_aggRows (data : List Item) (ncut issuer synIsin aggName category reason : String)
    (hcat : category = "CD_AGGREGATE" ∨ category = "CP_AGGREGATE")
    (hsyn : strStarts synIsin "SYN" = true)
    (items : List Item) (pr : List String)
    (hfresh : ∀ it ∈ items, it.isin ∉ pr)
    (hsub : items.Sublist data) (hnd : (data.map Item.isin).Nodup) :
    StepOk data pr (pr ++ items.map (·.isin))
      (items.map (aggRow ncut issuer synIsin aggName category reason)) where
  grow := fun s hs => List.mem_append_left _ hs
  src := fun r hr => by
    obtain ⟨it, hitmem, rfl⟩ := List.mem_map.mp hr
    exact ⟨it, hsub.subset hitmem, rfl⟩
  fresh := fun r hr => by
    obtain ⟨it, hitmem, rfl⟩ := List.mem_map.mp hr
    exact hfresh it hitmem
  claimed := fun r hr => by
    obtain ⟨it, hitmem, rfl⟩ := List.mem_map.mp hr
    exact List.mem_append_right _ (List.mem_map.mpr ⟨it, hitmem, rfl⟩)
  nodup := by
    have hmapeq : (items.map (aggRow ncut issuer synIsin aggName category reason)).map
        (·.isin_original) = items.map Item.isin := by
      rw [List.map_map]
      rfl
    rw [hmapeq]
    exact List.Nodup.sublist (hsub.map Item.isin) hnd
  prop := fun r hr => by
    obtain ⟨it, hitmem, rfl⟩ := List.mem_map.mp hr
    refine ⟨?_, ?_, ?_, ?_⟩
    · intro hact
      exact absurd (by simpa [aggRow] using hact)
        (by decide : ¬("AGGREGATE" : String) = "MAP")
    · intro _
      exact ⟨hsyn, rfl⟩
    · intro hc
      have hc' : category = "CORPORATE_ACTION" := by simpa [aggRow] using hc
      rcases hcat with h | h <;> rw [h] at hc' <;>
        exact absurd hc' (by decide)
    · rcases hcat with h | h
      · exact Or.inr (Or.inl h)
      · exact Or.inr (Or.inr (Or.inl h))

theorem stepOk_naFold (data : List Item) (ncut ic : String) :
    ∀ (items : List Item), (∀ it ∈ items, it ∈ data) →
    ∀ (rows0 : List RRow) (pr0 : List String),
    ∃ extra prF,
      items.foldl (fun acc2 it =>
        if acc2.2.contains it.isin then acc2
        else (acc2.1 ++ [naRow ncut ic it], acc2.2 ++ [it.isin])) (rows0, pr0) =
          (rows0 ++ extra, prF) ∧ StepOk data pr0 prF extra
  | [], _, rows0, pr0 => ⟨[], pr0, by simp, StepOk.nil data pr0⟩
  | it :: its, hmem, rows0, pr0 => by
    rw [List.foldl_cons]
    by_cases hc : pr0.contains it.isin = true
    · rw [if_pos hc]
      exact stepOk_naFold data ncut ic its (fun x hx => hmem x (by simp [hx])) rows0 pr0
    · rw [if_neg hc]
      obtain ⟨extra, prF, hfold, hok⟩ := stepOk_naFold data ncut ic its
        (fun x hx => hmem x (by simp [hx])) (rows0 ++ [naRow ncut ic it]) (pr0 ++ [it.isin])
      have hone : StepOk data pr0 (pr0 ++ [it.isin]) [naRow ncut ic it] := by
        refine { grow := fun s hs => List.mem_append_left _ hs,
                 src := ?_, fresh := ?_, claimed := ?_, nodup := by simp, prop := ?_ }
        · intro r hr
          simp only [List.mem_singleton] at hr
          subst hr
          exact ⟨it, hmem it (by simp), rfl⟩
        · intro r hr
          simp only [List.mem_singleton] at hr
          subst hr
          intro habs
          exact hc (contains_iff_mem.mpr habs)
        · intro r hr
          simp only [List.mem_singleton] at hr
          subst hr
          exact List.mem_append_right _ (by simp [naRow])
        · intro r hr
          simp only [List.mem_singleton] at hr
          subst hr
          refine ⟨?_, ?_, ?_, Or.inr (Or.inr (Or.inr rfl))⟩
          · intro hact
            exact absurd (by simpa [naRow] using hact)
              (by decide : ¬("NONE" : String) = "MAP")
          · intro hcats
            rcases hcats with h | h
            · exact absurd (by simpa [naRow] using h)
                (by decide : ¬("NO_ACTION" : String) = "CD_AGGREGATE")
            · exact absurd (by simpa [naRow] using h)
                (by decide : ¬("NO_ACTION" : String) = "CP_AGGREGATE")
          · intro hcats
            exact absurd (by simpa [naRow] using hcats)
              (by decide : ¬("NO_ACTION" : String) = "CORPORATE_ACTION")
      refine ⟨[naRow ncut ic it] ++ extra, prF, ?_, hone.trans hok⟩
      simpa [List.append_assoc] using hfold

theorem strStarts_append (s t : String) : strStarts (s ++ t) s = true := by
  have hdata : (s ++ t).data = s.data ++ t.data := rfl
  rw [strStarts, hdata]
  exact List.isPrefixOf_iff_prefix.mpr (List.prefix_append s.data t.data)

theorem stepOk_cdStep (data : List Item) (ncut issuer : String) (pr : List String)
    (issuerItems : List Item) (hsub : issuerItems.Sublist data)
    (hnd : (data.map Item.isin).Nodup) :
    StepOk data pr (cdStep ncut issuer pr issuerItems).2 (cdStep ncut issuer pr issuerItems).1 := by
  unfold cdStep
  by_cases hlen : 2 ≤ (issuerItems.filter
      (fun i => secCategory i = "CD" && !(pr.contains i.isin))).length
  · rw [if_pos hlen]
    refine stepOk_aggRows data ncut issuer _ _ _ _ (Or.inl rfl) (strStarts_append "SYN" _)
      _ pr ?_ ((List.filter_sublist issuerItems).trans hsub) hnd
    intro it hitmem habs
    have hcond := (List.mem_filter.mp hitmem).2
    rw [Bool.and_eq_true] at hcond
    rw [Bool.not_eq_true', ← Bool.not_eq_true] at hcond
    exact hcond.2 (contains_iff_mem.mpr habs)
  · rw [if_neg hlen]
    exact StepOk.nil data pr

theorem stepOk_cpStep (data : List Item) (ncut issuer : String) (pr : List String)
    (issuerItems : List Item) (hsub : issuerItems.Sublist data)
    (hnd : (data.map Item.isin).Nodup) :
    StepOk data pr (cpStep ncut issuer pr issuerItems).2 (cpStep ncut issuer pr issuerItems).1 := by
  unfold cpStep
  by_cases hlen : 2 ≤ (issuerItems.filter
      (fun i => secCategory i = "CP" && !(pr.contains i.isin))).length
  · rw [if_pos hlen]
    refine stepOk_aggRows data ncut issuer _ _ _ _ (Or.inr rfl) (strStarts_append "SYN" _)
      _ pr ?_ ((List.filter_sublist issuerItems).trans hsub) hnd
    intro it hitmem habs
    have hcond := (List.mem_filter.mp hitmem).2
    rw [Bool.and_eq_true] at hcond
    rw [Bool.not_eq_true', ← Bool.not_eq_true] at hcond
    exact hcond.2 (contains_iff_mem.mpr habs)
  · rw [if_neg hlen]
    exact StepOk.nil data pr

theorem stepOk_caFold (data : List Item) (ncut issuer : String) (pr : List String)
    (issuerItems : List Item) (hsub : issuerItems.Sublist data)
    (hnd : (data.map Item.isin).Nodup) :
    StepOk data pr (caFold ncut issuer pr issuerItems).2 (caFold ncut issuer pr issuerItems).1 := by
  obtain ⟨extra, prF, heq, hok⟩ := stepOk_foldl
    (fun pr2 b => processBase9Group ncut issuer pr2
      (issuerItems.filter (fun i => base9 i.isin = b)))
    (keyOrder (fun i => base9 i.isin) issuerItems)
    (fun pr2 b _ => by
      refine stepOk_base9 data ncut issuer pr2 _
        ((List.filter_sublist issuerItems).trans hsub) hnd ?_
      intro i1 h1 i2 h2
      have e1 := of_decide_eq_true (List.mem_filter.mp h1).2
      have e2 := of_decide_eq_true (List.mem_filter.mp h2).2
      rw [e1, e2])
    [] pr
  have heq' : caFold ncut issuer pr issuerItems = (extra, prF) := heq
  rw [heq']
  exact hok

theorem stepOk_issuerGroup (data : List Item) (ncut issuer : String) (pr : List String)
    (issuerItems : List Item) (hsub : issuerItems.Sublist data)
    (hnd : (data.map Item.isin).Nodup) :
    StepOk data pr (processIssuerGroup ncut issuer pr issuerItems).2
      (processIssuerGroup ncut issuer pr issuerItems).1 := by
  by_cases hcnt : distinctCount (issuerItems.map (·.isin)) < 2
  · have hout : processIssuerGroup ncut issuer pr issuerItems = ([], pr) := by
      unfold processIssuerGroup
      rw [if_pos hcnt]
    rw [hout]
    exact StepOk.nil data pr
  · have hout : processIssuerGroup ncut issuer pr issuerItems =
        ((caFold ncut issuer pr issuerItems).1 ++
           (cdStep ncut issuer (caFold ncut issuer pr issuerItems).2 issuerItems).1 ++
           (cpStep ncut issuer
             (cdStep ncut issuer (caFold ncut issuer pr issuerItems).2 issuerItems).2
             issuerItems).1,
         (cpStep ncut issuer
           (cdStep ncut issuer (caFold ncut issuer pr issuerItems).2 issuerItems).2
           issuerItems).2) := by
      unfold processIssuerGroup
      rw [if_neg hcnt]
    rw [hout]
    have hca := stepOk_caFold data ncut issuer pr issuerItems hsub hnd
    have hcd := stepOk_cdStep data ncut issuer (caFold ncut issuer pr issuerItems).2
      issuerItems hsub hnd
    have hcp := stepOk_cpStep data ncut issuer
      (cdStep ncut issuer (caFold ncut issuer pr issuerItems).2 issuerItems).2
      issuerItems hsub hnd
    exact (hca.trans hcd).trans hcp

theorem stepOk_naOuter (data : List Item) (ncut : String) (items : List Item)
    (hmem : ∀ it ∈ items, it ∈ data) :
    ∀ (keys : List String) (st : List RRow × List String),
    ∃ extra prF,
      keys.foldl (fun acc ic =>
        (items.filter (fun i => issuerCode i.isin = ic)).foldl
          (fun acc2 it => if acc2.2.contains it.isin then acc2
            else (acc2.1 ++ [naRow ncut ic it], acc2.2 ++ [it.isin])) acc) st =
        (st.1 ++ extra, prF) ∧ StepOk data st.2 prF extra
  | [], st => ⟨[], st.2, by simp, StepOk.nil data st.2⟩
  | ic :: ks, st => by
    obtain ⟨rows0, pr0⟩ := st
    rw [List.foldl_cons]
    obtain ⟨e1, pr1, hinner, hok1⟩ := stepOk_naFold data ncut ic
      (items.filter (fun i => issuerCode i.isin = ic))
      (fun x hx => hmem x (List.mem_filter.mp hx).1) rows0 pr0
    obtain ⟨e2, prF, houter, hok2⟩ := stepOk_naOuter data ncut items hmem ks
      ((items.filter (fun i => issuerCode i.isin = ic)).foldl
        (fun acc2 it => if acc2.2.contains it.isin then acc2
          else (acc2.1 ++ [naRow ncut ic it], acc2.2 ++ [it.isin])) (rows0, pr0))
    refine ⟨e1 ++ e2, prF, ?_, ?_⟩
    · rw [houter, hinner]
      simp [List.append_assoc]
    · rw [hinner] at hok2
      exact hok1.trans hok2

theorem stepOk_naSweep (data : List Item) (ncut : String) (st : List RRow × List String)
    (items : List Item) (hmem : ∀ it ∈ items, it ∈ data) :
    ∃ extra, (naSweep ncut st items).1 = st.1 ++ extra ∧
      StepOk data st.2 (naSweep ncut st items).2 extra := by
  by_cases hk : 1 < (keyOrder (fun i => issuerCode i.isin) items).length
  · obtain ⟨extra, prF, hfold, hok⟩ := stepOk_naOuter data ncut items hmem
      (keyOrder (fun i => issuerCode i.isin) items) st
    have hout : naSweep ncut st items = (st.1 ++ extra, prF) := by
      simp only [naSweep]
      rw [if_pos hk]
      exact hfold
    rw [hout]
    exact ⟨extra, rfl, hok⟩
  · have hout : naSweep ncut st items = st := by
      simp only [naSweep]
      rw [if_neg hk]
    rw [hout]
    exact ⟨[], by simp, StepOk.nil data st.2⟩

theorem stepOk_nameGroup (data : List Item) (ncut : String) (pr : List String)
    (items : List Item) (hsub : items.Sublist data)
    (hnd : (data.map Item.isin).Nodup) :
    StepOk data pr (processNameGroup ncut pr items).2
      (processNameGroup ncut pr items).1 := by
  by_cases h1 : items.length < 2
  · have hout : processNameGroup ncut pr items = ([], pr) := by
      unfold processNameGroup
      rw [if_pos h1]
    rw [hout]
    exact StepOk.nil data pr
  · by_cases h2 : distinctCount (items.map (·.isin)) < 2
    · have hout : processNameGroup ncut pr items = ([], pr) := by
        unfold processNameGroup
        rw [if_neg h1, if_pos h2]
      rw [hout]
      exact StepOk.nil data pr
    · have hout : processNameGroup ncut pr items =
          naSweep ncut (issuerFold ncut pr items) items := by
        unfold processNameGroup
        rw [if_neg h1, if_neg h2]
      obtain ⟨extraI, prI, heqI, hokI⟩ := stepOk_foldl
        (fun pr2 ic => processIssuerGroup ncut ic pr2
          (items.filter (fun i => issuerCode i.isin = ic)))
        (keyOrder (fun i => issuerCode i.isin) items)
        (fun pr2 ic _ => stepOk_issuerGroup data ncut ic pr2 _
          ((List.filter_sublist items).trans hsub) hnd)
        [] pr
      have heqI' : issuerFold ncut pr items = (extraI, prI) := heqI
      obtain ⟨extraN, heqN, hokN⟩ := stepOk_naSweep data ncut (issuerFold ncut pr items)
        items (fun x hx => hsub.subset hx)
      rw [hout]
      rw [heqI'] at heqN hokN
      have hrows : (naSweep ncut (issuerFold ncut pr items) items).1 =
          extraI ++ extraN := by
        rw [heqI']
        simpa using heqN
      rw [hrows]
      have hpr2 : (naSweep ncut (issuerFold ncut pr items) items).2 =
          (naSweep ncut (extraI, prI) items).2 := by rw [heqI']
      rw [hpr2]
      exact hokI.trans hokN

theorem stepOk_nameGroupFold (data : List Item) (hnd : (data.map Item.isin).Nodup) :
    ∃ prF, StepOk data (goiProcessed data) prF (nameGroupFold data).1 := by
  obtain ⟨extra, prF, heq, hok⟩ := stepOk_foldl
    (fun pr2 k => processNameGroup k pr2
      ((eligibleItems data).filter (fun i => nameCut i = k)))
    (sortByB strLeB (keyOrder nameCut (eligibleItems data)))
    (fun pr2 k _ => stepOk_nameGroup data k pr2 _
      ((List.filter_sublist (eligibleItems data)).trans
        (List.filter_sublist data)) hnd)
    [] (goiProcessed data)
  have heq' : nameGroupFold data = (extra, prF) := heq
  rw [heq']
  exact ⟨prF, hok⟩

theorem mkTbillRow_isin (it : Item) : (mkTbillRow it).isin_original = it.isin := rfl

theorem mkGsecRow_isin (it : Item) : (mkGsecRow it).isin_original = it.isin := rfl

theorem detectAndCategorize_isins_nodup (data : List Item)
    (hnd : (data.map Item.isin).Nodup) :
    ((detectAndCategorize data).map (·.isin_original)).Nodup := by
  obtain ⟨prF, hok⟩ := stepOk_nameGroupFold data hnd
  have htb : ((goiTbills data).map mkTbillRow).map (·.isin_original) =
      (goiTbills data).map Item.isin := by
    rw [List.map_map]
    rfl
  have hgs : ((goiGsecs data).map mkGsecRow).map (·.isin_original) =
      (goiGsecs data).map Item.isin := by
    rw [List.map_map]
    rfl
  have htbnodup : ((goiTbills data).map Item.isin).Nodup :=
    List.Nodup.sublist ((List.filter_sublist data).map Item.isin) hnd
  have hgsnodup : ((goiGsecs data).map Item.isin).Nodup :=
    List.Nodup.sublist ((List.filter_sublist data).map Item.isin) hnd
  have hdisj1 : ∀ s, s ∈ (goiTbills data).map Item.isin →
      s ∈ (goiGsecs data).map Item.isin → False := by
    intro s hs1 hs2
    obtain ⟨i1, hi1, rfl⟩ := List.mem_map.mp hs1
    obtain ⟨i2, hi2, heq2⟩ := List.mem_map.mp hs2
    have hi1' := List.mem_filter.mp hi1
    have hi2' := List.mem_filter.mp hi2
    have : i2 = i1 := List.inj_on_of_nodup_map hnd hi2'.1 hi1'.1 heq2
    subst this
    have e1 := of_decide_eq_true hi1'.2
    have e2 := of_decide_eq_true hi2'.2
    rw [e1] at e2
    exact absurd e2 (by decide)
  have hgrp : ∀ r ∈ (nameGroupFold data).1, r.isin_original ∉ goiProcessed data :=
    hok.fresh
  unfold detectAndCategorize
  rw [List.map_append, List.map_append, List.append_assoc, List.nodup_append]
  refine ⟨?_, ?_, ?_⟩
  · rw [htb]
    exact htbnodup
  · rw [List.nodup_append]
    refine ⟨by rw [hgs]; exact hgsnodup, hok.nodup, ?_⟩
    intro s hs1 hs2
    obtain ⟨r, hr, rfl⟩ := List.mem_map.mp hs2
    rw [hgs] at hs1
    exact hgrp r hr (List.mem_append_right _ hs1)
  · intro s hs1 hs2
    rw [htb] at hs1
    rcases List.mem_append.mp hs2 with h | h
    · rw [hgs] at h
      exact hdisj1 s hs1 h
    · obtain ⟨r, hr, rfl⟩ := List.mem_map.mp h
      exact hgrp r hr (List.mem_append_left _ hs1)

/-- C1: within one run of `detect_and_categorize` over a ledger with
distinct identifiers, every identifier appears in at most one category:
two produced rows carrying the same original identifier have the same
category (indeed they are the same row), so the category lists partition
the classified identifiers. -/
theorem c1_category_partition (data : List Item)
    (hnd : (data.map Item.isin).Nodup) (r1 r2 : RRow)
    (h1 : r1 ∈ detectAndCategorize data) (h2 : r2 ∈ detectAndCategorize data)
    (heq : r1.isin_original = r2.isin_original) :
    r1.category = r2.category ∧ r1 = r2 := by
  have h := List.inj_on_of_nodup_map (detectAndCategorize_isins_nodup data hnd) h1 h2 heq
  exact ⟨by rw [h], h⟩

theorem c1_category_partition_witness :
    ((scenarioB.map Item.isin).Nodup ∧
      scenarioBMapRow ∈ detectAndCategorize scenarioB) ∧
    scenarioBMapRow.category = scenarioBMapRow.category :=
  ⟨⟨by decide, by decide⟩,
    (c1_category_partition scenarioB (by decide) scenarioBMapRow scenarioBMapRow
      (by decide) (by decide) rfl).1⟩

theorem strStarts_syn_in_false (s : String) (h1 : strStarts s "SYN" = true)
    (h2 : strStarts s "IN" = true) : False := by
  rw [strStarts] at h1 h2
  obtain ⟨t1, e1⟩ := List.isPrefixOf_iff_prefix.mp h1
  obtain ⟨t2, e2⟩ := List.isPrefixOf_iff_prefix.mp h2
  rw [← e1] at e2
  simp at e2

theorem mem_detectAndCategorize_cases {data : List Item} {r : RRow}
    (h : r ∈ detectAndCategorize data) :
    (∃ it ∈ goiTbills data, r = mkTbillRow it) ∨
    (∃ it ∈ goiGsecs data, r = mkGsecRow it) ∨
    r ∈ (nameGroupFold data).1 := by
  rcases List.mem_append.mp h with h' | h'
  · rcases List.mem_append.mp h' with h'' | h''
    · obtain ⟨it, hit, rfl⟩ := List.mem_map.mp h''
      exact Or.inl ⟨it, hit, rfl⟩
    · obtain ⟨it, hit, rfl⟩ := List.mem_map.mp h''
      exact Or.inr (Or.inl ⟨it, hit, rfl⟩)
  · exact Or.inr (Or.inr h')

/-- C10: the mapping artifact written by `write_mapping_file` never contains
an identity mapping: over a ledger of distinct identifiers all beginning
`IN`, every written row has `isin_mapped` different from `isin_original` —
MAP rows map to the distinct canonical identifier of their group, and the
aggregate rows map to a synthesized `SYN…` identifier no ledger identifier
can equal. -/
theorem c10_no_identity_mapping (data : List Item)
    (hnd : (data.map Item.isin).Nodup)
    (hin : ∀ it ∈ data, strStarts it.isin "IN" = true) :
    ∀ r ∈ mappingEntries (detectAndCategorize data),
      r.isin_mapped ≠ r.isin_original := by
  obtain ⟨prF, hok⟩ := stepOk_nameGroupFold data hnd
  intro r hr
  have hgrp : r ∈ (nameGroupFold data).1 → GroupRowProp data r := fun h => hok.prop r h
  have hsynCase : r ∈ (nameGroupFold data).1 → strStarts r.isin_mapped "SYN" = true →
      r.isin_mapped ≠ r.isin_original := by
    intro hmem hsyn habs
    obtain ⟨it, hit, hiso⟩ := hok.src r hmem
    rw [habs, hiso] at hsyn
    exact strStarts_syn_in_false it.isin hsyn (hin it hit)
  have hcases : ∀ {cat : String}, r ∈ detectAndCategorize data → r.category = cat →
      cat ≠ "TBILL_AGGREGATE" → cat ≠ "GSEC_AGGREGATE" → r ∈ (nameGroupFold data).1 := by
    intro cat hmem hcat hnt hng
    rcases mem_detectAndCategorize_cases hmem with ⟨it, _, rfl⟩ | ⟨it, _, rfl⟩ | h
    · exact absurd hcat.symm hnt
    · exact absurd hcat.symm hng
    · exact h
  rcases List.mem_append.mp hr with h4 | hgsec
  rotate_left
  · -- GSEC_AGGREGATE rows
    obtain ⟨hmem, hcat⟩ := List.mem_filter.mp hgsec
    have hcat := of_decide_eq_true hcat
    rcases mem_detectAndCategorize_cases hmem with ⟨it, hit, rfl⟩ | ⟨it, hit, rfl⟩ | h
    · have hc2 : ("TBILL_AGGREGATE" : String) = "GSEC_AGGREGATE" := hcat
      exact absurd hc2 (by decide)
    · intro habs
      have hiso : (mkGsecRow it).isin_original = it.isin := rfl
      have hmap : (mkGsecRow it).isin_mapped = "SYNGOIGSEC01" := rfl
      have := hin it (List.mem_filter.mp hit).1
      rw [← hiso, ← habs, hmap] at this
      exact absurd this (by decide)
    · obtain ⟨_, _, _, hcat4⟩ := hok.prop r h
      rcases hcat4 with h' | h' | h' | h' <;> rw [hcat] at h' <;> exact absurd h' (by decide)
  rcases List.mem_append.mp h4 with h3 | htbill
  rotate_left
  · -- TBILL_AGGREGATE rows
    obtain ⟨hmem, hcat⟩ := List.mem_filter.mp htbill
    have hcat := of_decide_eq_true hcat
    rcases mem_detectAndCategorize_cases hmem with ⟨it, hit, rfl⟩ | ⟨it, hit, rfl⟩ | h
    · intro habs
      have hiso : (mkTbillRow it).isin_original = it.isin := rfl
      have hmap : (mkTbillRow it).isin_mapped = "SYNGOITBILL01" := rfl
      have := hin it (List.mem_filter.mp hit).1
      rw [← hiso, ← habs, hmap] at this
      exact absurd this (by decide)
    · have hc2 : ("GSEC_AGGREGATE" : String) = "TBILL_AGGREGATE" := hcat
      exact absurd hc2 (by decide)
    · obtain ⟨_, _, _, hcat4⟩ := hok.prop r h
      rcases hcat4 with h' | h' | h' | h' <;> rw [hcat] at h' <;> exact absurd h' (by decide)
  rcases List.mem_append.mp h3 with h2 | hcp
  rotate_left
  · -- CP_AGGREGATE rows
    obtain ⟨hmem, hcat⟩ := List.mem_filter.mp hcp
    have hcat := of_decide_eq_true hcat
    have hmemG : r ∈ (nameGroupFold data).1 :=
      hcases hmem hcat (by decide) (by decide)
    obtain ⟨_, hp2, _, _⟩ := hok.prop r hmemG
    exact hsynCase hmemG (hp2 (Or.inr hcat)).1
  rcases List.mem_append.mp h2 with hca | hcd
  rotate_left
  · -- CD_AGGREGATE rows
    obtain ⟨hmem, hcat⟩ := List.mem_filter.mp hcd
    have hcat := of_decide_eq_true hcat
    have hmemG : r ∈ (nameGroupFold data).1 :=
      hcases hmem hcat (by decide) (by decide)
    obtain ⟨_, hp2, _, _⟩ := hok.prop r hmemG
    exact hsynCase hmemG (hp2 (Or.inl hcat)).1
  · -- corporate-action MAP rows
    obtain ⟨hca', hact⟩ := List.mem_filter.mp hca
    have hact := of_decide_eq_true hact
    obtain ⟨hmem, hcat⟩ := List.mem_filter.mp hca'
    have hcat := of_decide_eq_true hcat
    have hmemG : r ∈ (nameGroupFold data).1 :=
      hcases hmem hcat (by decide) (by decide)
    obtain ⟨hp1, _, _, _⟩ := hok.prop r hmemG
    exact hp1 hact

theorem c10_no_identity_mapping_witness :
    ((scenarioB.map Item.isin).Nodup ∧
      (∀ it ∈ scenarioB, strStarts it.isin "IN" = true) ∧
      scenarioBMapRow ∈ mappingEntries (detectAndCategorize scenarioB)) ∧
    scenarioBMapRow.isin_mapped ≠ scenarioBMapRow.isin_original :=
  ⟨⟨by decide, by decide, by decide⟩,
    c10_no_identity_mapping scenarioB (by decide) (by decide) scenarioBMapRow (by decide)⟩

theorem digitsVal_lt (cs : List Char) (h : ∀ c ∈ cs, isDigitChar c = true) :
    digitsVal cs < 10 ^ cs.length := by
  induction cs with
  | nil => simp [digitsVal]
  | cons c cs ih =>
    have hc := h c (by simp)
    simp only [isDigitChar, Bool.and_eq_true, decide_eq_true_eq] at hc
    have hle57 : c.toNat ≤ 57 := hc.2
    have h9 : c.toNat - 48 ≤ 9 := by omega
    have ihv := ih (fun x hx => h x (by simp [hx]))
    have hcalc : (c.toNat - 48) * 10 ^ cs.length + digitsVal cs <
        10 ^ (cs.length + 1) := by
      calc (c.toNat - 48) * 10 ^ cs.length + digitsVal cs
          ≤ 9 * 10 ^ cs.length + digitsVal cs :=
            Nat.add_le_add_right (Nat.mul_le_mul_right _ h9) _
        _ < 9 * 10 ^ cs.length + 10 ^ cs.length := Nat.add_lt_add_left ihv _
        _ = 10 ^ (cs.length + 1) := by rw [pow_succ]; ring
    exact hcalc

theorem charListLe_digitsVal :
    ∀ (as bs : List Char), as.length = bs.length →
    (∀ c ∈ as, isDigitChar c = true) → (∀ c ∈ bs, isDigitChar c = true) →
    charListLe as bs = true → digitsVal as ≤ digitsVal bs
  | [], [], _, _, _, _ => le_refl 0
  | [], _ :: _, hlen, _, _, _ => by simp at hlen
  | _ :: _, [], hlen, _, _, _ => by simp at hlen
  | a :: as, b :: bs, hlen, ha, hb, hle => by
    have hlen' : as.length = bs.length := by simpa using hlen
    rw [charListLe] at hle
    by_cases heq : a.toNat = b.toNat
    · rw [if_pos heq] at hle
      have ih := charListLe_digitsVal as bs hlen' (fun c hc => ha c (by simp [hc]))
        (fun c hc => hb c (by simp [hc])) hle
      show (a.toNat - 48) * 10 ^ as.length + digitsVal as ≤
        (b.toNat - 48) * 10 ^ bs.length + digitsVal bs
      rw [heq, hlen']
      exact Nat.add_le_add_left ih _
    · rw [if_neg heq] at hle
      have hlt : a.toNat < b.toNat := of_decide_eq_true hle
      have ha' := ha a (by simp)
      have hb' := hb b (by simp)
      simp only [isDigitChar, Bool.and_eq_true, decide_eq_true_eq] at ha' hb'
      have ha48 : 48 ≤ a.toNat := ha'.1
      have hb48 : 48 ≤ b.toNat := hb'.1
      have hbound := digitsVal_lt as (fun c hc => ha c (by simp [hc]))
      have hstep : a.toNat - 48 + 1 ≤ b.toNat - 48 := by omega
      show (a.toNat - 48) * 10 ^ as.length + digitsVal as ≤
        (b.toNat - 48) * 10 ^ bs.length + digitsVal bs
      rw [← hlen']
      refine le_of_lt ?_
      calc (a.toNat - 48) * 10 ^ as.length + digitsVal as
          < (a.toNat - 48) * 10 ^ as.length + 10 ^ as.length :=
            Nat.add_lt_add_left hbound _
        _ = (a.toNat - 48 + 1) * 10 ^ as.length := by ring
        _ ≤ (b.toNat - 48) * 10 ^ as.length := Nat.mul_le_mul_right _ hstep
        _ ≤ (b.toNat - 48) * 10 ^ as.length + digitsVal bs := Nat.le_add_right _ _

theorem serialOf_data_length {s : String} (h : 11 ≤ pyLen s) :
    (serialOf s).data.length = 2 := by
  show ((s.data.drop 9).take (11 - 9)).length = 2
  rw [List.length_take, List.length_drop]
  have h' : 11 ≤ s.data.length := h
  omega

/-- C2: every row classified CORPORATE_ACTION by `detect_and_categorize` —
over a ledger of distinct identifiers whose serial components are digit
pairs — belongs to a base-prefix group with exactly one canonical member
(`is_target = true`, action `TARGET`), and that member carries the
numerically highest serial; every member maps to the canonical member's
identifier and name, non-canonical members with action `MAP`. -/
theorem c2_corporate_action_canonical (data : List Item)
    (hnd : (data.map Item.isin).Nodup)
    (hdig : ∀ it ∈ data, ∀ c ∈ (serialOf it.isin).data, isDigitChar c = true)
    (hlen : ∀ it ∈ data, 11 ≤ pyLen it.isin)
    (r : RRow) (hr : r ∈ detectAndCategorize data)
    (hcat : r.category = "CORPORATE_ACTION") :
    caCanonicalSpec r := by
  obtain ⟨prF, hok⟩ := stepOk_nameGroupFold data hnd
  have hmemG : r ∈ (nameGroupFold data).1 := by
    rcases mem_detectAndCategorize_cases hr with ⟨it, _, rfl⟩ | ⟨it, _, rfl⟩ | h
    · have hc2 : ("TBILL_AGGREGATE" : String) = "CORPORATE_ACTION" := hcat
      exact absurd hc2 (by decide)
    · have hc2 : ("GSEC_AGGREGATE" : String) = "CORPORATE_ACTION" := hcat
      exact absurd hc2 (by decide)
    · exact h
  obtain ⟨_, _, hp3, _⟩ := hok.prop r hmemG
  obtain ⟨ncut, issuer, pr, b9items, hrout, hsrcout, hgok⟩ := hp3 hcat
  refine ⟨(processBase9Group ncut issuer pr b9items).1, hrout, hgok.1, ?_⟩
  intro t ht htar
  obtain ⟨htact, hall⟩ := hgok.2 t ht htar
  refine ⟨htact, ?_⟩
  intro x hx
  obtain ⟨hxcat, hchar, hmapx, hnamex, _, hb9x, hmact⟩ := hall x hx
  obtain ⟨itx, hitx, hisox⟩ := hsrcout x hx
  obtain ⟨itt, hitt, hisot⟩ := hsrcout t ht
  have l1 := serialOf_data_length (hlen itx hitx)
  have l2 := serialOf_data_length (hlen itt hitt)
  refine ⟨hxcat, hb9x, ?_, hmapx, hnamex, hmact⟩
  refine charListLe_digitsVal _ _ ?_ ?_ ?_ hchar
  · rw [hisox, hisot, l1, l2]
  · rw [hisox]
    exact hdig itx hitx
  · rw [hisot]
    exact hdig itt hitt

theorem c2_corporate_action_canonical_witness :
    ((scenarioB.map Item.isin).Nodup ∧
      (∀ it ∈ scenarioB, ∀ c ∈ (serialOf it.isin).data, isDigitChar c = true) ∧
      (∀ it ∈ scenarioB, 11 ≤ pyLen it.isin) ∧
      scenarioBMapRow ∈ detectAndCategorize scenarioB ∧
      scenarioBMapRow.category = "CORPORATE_ACTION") ∧
    caCanonicalSpec scenarioBMapRow :=
  ⟨⟨by decide, by decide, by decide, by decide, rfl⟩,
    c2_corporate_action_canonical scenarioB (by decide) (by decide) (by decide)
      scenarioBMapRow (by decide) rfl⟩

theorem splitChar_no_sep (sep : Char) :
    ∀ (l : List Char), sep ∉ l → splitChar sep l = [l]
  | [], _ => rfl
  | c :: rest, h => by
    have hc : ¬ c = sep := fun he => h (by simp [he])
    have hr := splitChar_no_sep sep rest (fun hm => h (by simp [hm]))
    simp [splitChar, hr, hc]

theorem splitChar_ne_nil (sep : Char) : ∀ (l : List Char), splitChar sep l ≠ []
  | [] => by simp [splitChar]
  | c :: rest => by
    have hne := splitChar_ne_nil sep rest
    cases h : splitChar sep rest with
    | nil => exact absurd h hne
    | cons a t => by_cases hc : c = sep <;> simp [splitChar, h, hc]

theorem splitChar_append_sep (sep : Char) :
    ∀ (pre tail : List Char), sep ∉ pre →
      splitChar sep (pre ++ sep :: tail) = pre :: splitChar sep tail
  | [], tail, _ => by
    cases h : splitChar sep tail with
    | nil => exact absurd h (splitChar_ne_nil sep tail)
    | cons a t => simp [splitChar, h]
  | c :: pre, tail, h => by
    have hc : ¬ c = sep := fun he => h (by simp [he])
    have hr := splitChar_append_sep sep pre tail (fun hm => h (by simp [hm]))
    simp [splitChar, hr, hc]

theorem splitChar_joinWithChars (sep : Char) :
    ∀ (ls : List String), ls ≠ [] → (∀ l ∈ ls, sep ∉ l.data) →
      splitChar sep (joinWithChars sep ls) = ls.map String.data
  | [], h, _ => absurd rfl h
  | [s], _, hs => by
    show splitChar sep s.data = [s].map String.data
    rw [splitChar_no_sep sep s.data (hs s (by simp))]
    rfl
  | s :: s2 :: rest, _, hs => by
    show splitChar sep (s.data ++ sep :: joinWithChars sep (s2 :: rest)) = _
    rw [splitChar_append_sep sep s.data _ (hs s (by simp))]
    rw [splitChar_joinWithChars sep (s2 :: rest) (by simp)
      (fun l hl => hs l (List.mem_cons_of_mem s hl))]
    rfl

theorem string_data_map_eta : ∀ (ls : List String),
    (ls.map String.data).map (fun l => (⟨l⟩ : String)) = ls
  | [] => rfl
  | _ :: ls => by
    rw [List.map_cons, List.map_cons, string_data_map_eta ls]

theorem join_split (sep : Char) (ls : List String) (hne : ls ≠ [])
    (h : ∀ l ∈ ls, sep ∉ l.data) : splitStr sep (joinWith sep ls) = ls := by
  show (splitChar sep (joinWithChars sep ls)).map (fun l => (⟨l⟩ : String)) = ls
  rw [splitChar_joinWithChars sep ls hne h]
  exact string_data_map_eta ls

theorem splitStr_mappingLine (cat : String) (r : RRow)
    (hc : ('\t') ∉ cat.data)
    (h1 : ('\t') ∉ r.isin_original.data) (h2 : ('\t') ∉ r.isin_mapped.data)
    (h3 : ('\t') ∉ r.name_mapped.data) (h4 : ('\t') ∉ r.reason.data) :
    splitStr '\t' (mappingLine cat r) =
      [r.isin_original, r.isin_mapped, r.name_mapped, cat, r.reason] := by
  apply join_split
  · simp
  · intro l hl
    simp only [List.mem_cons, List.mem_singleton] at hl
    rcases hl with rfl | rfl | rfl | rfl | rfl | hl
    · exact h1
    · exact h2
    · exact h3
    · exact hc
    · exact h4
    · simp at hl

theorem find?_filter_of_imp {α : Type} {p q : α → Bool} :
    ∀ (l : List α), (∀ x, p x = true → q x = true) →
      (l.filter q).find? p = l.find? p
  | [], _ => rfl
  | x :: l, h => by
    by_cases hp : p x = true
    · have hq := h x hp
      rw [List.filter_cons_of_pos hq, List.find?_cons_of_pos _ hp,
        List.find?_cons_of_pos _ hp]
    · have hp' : ¬ p x := by simpa using hp
      by_cases hq : q x = true
      · rw [List.filter_cons_of_pos hq, List.find?_cons_of_neg _ hp',
          List.find?_cons_of_neg _ hp']
        exact find?_filter_of_imp l h
      · rw [List.filter_cons_of_neg (by simpa using hq), List.find?_cons_of_neg _ hp']
        exact find?_filter_of_imp l h

theorem dictGet_dictInsert_self (m : List (String × VEntry)) (k : String) (v : VEntry) :
    dictGet (dictInsert m k v) k = some v := by
  rw [dictGet, dictInsert, List.find?_append]
  have h1 : (m.filter (fun kv => kv.1 ≠ k)).find? (fun kv => kv.1 = k) = none := by
    rw [List.find?_eq_none]
    intro x hx
    have hne := (List.mem_filter.mp hx).2
    simp only [decide_eq_true_eq] at hne ⊢
    exact hne
  rw [h1]
  simp [List.find?]

theorem dictGet_dictInsert_ne (m : List (String × VEntry)) (k k' : String) (v : VEntry)
    (h : k ≠ k') : dictGet (dictInsert m k' v) k = dictGet m k := by
  rw [dictGet, dictGet, dictInsert, List.find?_append]
  rw [find?_filter_of_imp m (fun x hx => ?_)]
  · have h2 : List.find? (fun kv => kv.1 = k) [(k', v)] = none := by
      simp [List.find?, Ne.symm h]
    rw [h2]
    cases List.find? (fun kv => kv.1 = k) m <;> rfl
  · simp only [decide_eq_true_eq] at hx ⊢
    rw [hx]
    exact h

theorem dictGet_foldl_not_mem :
    ∀ (es : List (String × VEntry)) (m : List (String × VEntry)) (k : String),
      k ∉ es.map Prod.fst →
      dictGet (es.foldl (fun m2 e => dictInsert m2 e.1 e.2) m) k = dictGet m k
  | [], _, _, _ => rfl
  | e :: es, m, k, h => by
    rw [List.foldl_cons]
    rw [dictGet_foldl_not_mem es _ k (fun hm => h (by simp [hm]))]
    exact dictGet_dictInsert_ne m k e.1 e.2 (fun he => h (by simp [he]))

theorem dictGet_foldl_mem :
    ∀ (es : List (String × VEntry)) (m : List (String × VEntry)) (k : String) (v : VEntry),
      (es.map Prod.fst).Nodup → (k, v) ∈ es →
      dictGet (es.foldl (fun m2 e => dictInsert m2 e.1 e.2) m) k = some v
  | [], _, _, _, _, hmem => absurd hmem (by simp)
  | e :: es, m, k, v, hnd, hmem => by
    rw [List.foldl_cons]
    have hnd' : e.1 ∉ es.map Prod.fst ∧ (es.map Prod.fst).Nodup :=
      List.nodup_cons.mp hnd
    rcases List.mem_cons.mp hmem with he | hm
    · have hek : e.1 = k := by rw [← he]
      have hk : k ∉ es.map Prod.fst := by
        rw [← hek]
        exact hnd'.1
      rw [dictGet_foldl_not_mem es _ k hk, ← he]
      exact dictGet_dictInsert_self m k v
    · exact dictGet_foldl_mem es _ k v hnd'.2 hm

theorem mappingEntries_isins_nodup (rows : List RRow)
    (hnd : (rows.map (·.isin_original)).Nodup) :
    ((mappingEntries rows).map (·.isin_original)).Nodup := by
  have hinj : ∀ x ∈ rows, ∀ y ∈ rows, x.isin_original = y.isin_original → x = y :=
    fun x hx y hy h => List.inj_on_of_nodup_map hnd hx hy h
  have hsegA : (((corporateActionRows rows).filter
      (·.action = "MAP")).map (·.isin_original)).Nodup :=
    List.Nodup.sublist
      (((List.filter_sublist _).trans (List.filter_sublist rows)).map _) hnd
  have hseg : ∀ p : RRow → Bool, ((rows.filter p).map (·.isin_original)).Nodup :=
    fun p => List.Nodup.sublist ((List.filter_sublist rows).map _) hnd
  have hmemA : ∀ x ∈ (corporateActionRows rows).filter (·.action = "MAP"),
      x ∈ rows ∧ x.category = "CORPORATE_ACTION" := by
    intro x hx
    obtain ⟨hx1, _⟩ := List.mem_filter.mp hx
    obtain ⟨hx2, hcat⟩ := List.mem_filter.mp hx1
    exact ⟨hx2, of_decide_eq_true hcat⟩
  have hmemF : ∀ (c : String) (x : RRow), x ∈ rows.filter (·.category = c) →
      x ∈ rows ∧ x.category = c := by
    intro c x hx
    obtain ⟨hx1, hcat⟩ := List.mem_filter.mp hx
    exact ⟨hx1, of_decide_eq_true hcat⟩
  have pairdisj : ∀ {l1 l2 : List RRow} (c1 c2 : String),
      (∀ x ∈ l1, x ∈ rows ∧ x.category = c1) →
      (∀ x ∈ l2, x ∈ rows ∧ x.category = c2) → c1 ≠ c2 →
      ∀ s, s ∈ l1.map (·.isin_original) → s ∈ l2.map (·.isin_original) → False := by
    intro l1 l2 c1 c2 h1 h2 hne s hs1 hs2
    obtain ⟨x, hx, rfl⟩ := List.mem_map.mp hs1
    obtain ⟨y, hy, he⟩ := List.mem_map.mp hs2
    obtain ⟨hxr, hxc⟩ := h1 x hx
    obtain ⟨hyr, hyc⟩ := h2 y hy
    have hxy := hinj y hyr x hxr he
    rw [hxy] at hyc
    exact hne (hxc ▸ hyc ▸ rfl)
  rw [mappingEntries]
  rw [List.append_assoc, List.append_assoc, List.append_assoc]
  rw [List.map_append, List.nodup_append]
  refine ⟨hsegA, ?_, ?_⟩
  · rw [List.map_append, List.nodup_append]
    refine ⟨hseg _, ?_, ?_⟩
    · rw [List.map_append, List.nodup_append]
      refine ⟨hseg _, ?_, ?_⟩
      · rw [List.map_append, List.nodup_append]
        refine ⟨hseg _, hseg _, ?_⟩
        · exact pairdisj "TBILL_AGGREGATE" "GSEC_AGGREGATE"
            (fun x hx => hmemF _ x hx) (fun x hx => hmemF _ x hx) (by decide)
      · intro s hs1 hs2
        rw [List.map_append] at hs2
        rcases List.mem_append.mp hs2 with h' | h'
        · exact pairdisj "CP_AGGREGATE" "TBILL_AGGREGATE"
            (fun x hx => hmemF _ x hx) (fun x hx => hmemF _ x hx) (by decide) s hs1 h'
        · exact pairdisj "CP_AGGREGATE" "GSEC_AGGREGATE"
            (fun x hx => hmemF _ x hx) (fun x hx => hmemF _ x hx) (by decide) s hs1 h'
    · intro s hs1 hs2
      rw [List.map_append] at hs2
      rcases List.mem_append.mp hs2 with h' | h'
      · exact pairdisj "CD_AGGREGATE" "CP_AGGREGATE"
          (fun x hx => hmemF _ x hx) (fun x hx => hmemF _ x hx) (by decide) s hs1 h'
      · rw [List.map_append] at h'
        rcases List.mem_append.mp h' with h'' | h''
        · exact pairdisj "CD_AGGREGATE" "TBILL_AGGREGATE"
            (fun x hx => hmemF _ x hx) (fun x hx => hmemF _ x hx) (by decide) s hs1 h''
        · exact pairdisj "CD_AGGREGATE" "GSEC_AGGREGATE"
            (fun x hx => hmemF _ x hx) (fun x hx => hmemF _ x hx) (by decide) s hs1 h''
  · intro s hs1 hs2
    rw [List.map_append] at hs2
    rcases List.mem_append.mp hs2 with h' | h'
    · exact pairdisj "CORPORATE_ACTION" "CD_AGGREGATE"
        hmemA (fun x hx => hmemF _ x hx) (by decide) s hs1 h'
    · rw [List.map_append] at h'
      rcases List.mem_append.mp h' with h'' | h''
      · exact pairdisj "CORPORATE_ACTION" "CP_AGGREGATE"
          hmemA (fun x hx => hmemF _ x hx) (by decide) s hs1 h''
      · rw [List.map_append] at h''
        rcases List.mem_append.mp h'' with h3 | h3
        · exact pairdisj "CORPORATE_ACTION" "TBILL_AGGREGATE"
            hmemA (fun x hx => hmemF _ x hx) (by decide) s hs1 h3
        · exact pairdisj "CORPORATE_ACTION" "GSEC_AGGREGATE"
            hmemA (fun x hx => hmemF _ x hx) (by decide) s hs1 h3

theorem foldl_congr_list {α β : Type} (f g : β → α → β) :
    ∀ (l : List α), (∀ b, ∀ x ∈ l, f b x = g b x) → ∀ b, l.foldl f b = l.foldl g b
  | [], _, _ => rfl
  | x :: l, h, b => by
    rw [List.foldl_cons, List.foldl_cons, h b x (by simp)]
    exact foldl_congr_list f g l (fun b' y hy => h b' y (List.mem_cons_of_mem x hy)) _

theorem mappingKVs_fst (rows : List RRow) :
    (mappingKVs rows).map Prod.fst = (mappingEntries rows).map (·.isin_original) := by
  simp only [mappingKVs, mappingEntries, List.map_append, List.map_map]
  rfl

theorem loadStep_mappingLine (cat : String) (r : RRow) (m : List (String × VEntry))
    (hstripline : pyStrip (mappingLine cat r) = mappingLine cat r)
    (hc : ('\t') ∉ cat.data)
    (h1 : ('\t') ∉ r.isin_original.data) (h2 : ('\t') ∉ r.isin_mapped.data)
    (h3 : ('\t') ∉ r.name_mapped.data) (h4 : ('\t') ∉ r.reason.data) :
    (fun (m2 : List (String × VEntry)) (line : String) =>
      let parts := splitStr '\t' (pyStrip line)
      if 3 ≤ parts.length then
        dictInsert m2 (listGetD parts 0)
          { isin_mapped := listGetD parts 1, name_mapped := listGetD parts 2,
            category := listGetD parts 3, reason := listGetD parts 4 }
      else m2) m (mappingLine cat r) =
    dictInsert m (kvOf cat r).1 (kvOf cat r).2 := by
  simp only [hstripline, splitStr_mappingLine cat r hc h1 h2 h3 h4]
  simp [listGetD, kvOf]

theorem load_of_write (rows : List RRow)
    (hnl : ∀ l ∈ writeMappingLines rows, ('\n') ∉ l.data)
    (hstrip : ∀ l ∈ writeMappingLines rows, pyStrip l = l)
    (htab : ∀ r ∈ mappingEntries rows,
      ('\t') ∉ r.isin_original.data ∧ ('\t') ∉ r.isin_mapped.data ∧
      ('\t') ∉ r.name_mapped.data ∧ ('\t') ∉ r.reason.data) :
    loadIsinValidationMapping (writeMappingContent rows) =
      (mappingKVs rows).foldl (fun m e => dictInsert m e.1 e.2) [] := by
  have hl : writeMappingLines rows = mappingHeader ::
      (((corporateActionRows rows).filter (·.action = "MAP")).map
          (mappingLine "CORPORATE_ACTION") ++
        ((cdAggregateRows rows).map (mappingLine "CD_AGGREGATE") ++
          ((cpAggregateRows rows).map (mappingLine "CP_AGGREGATE") ++
            ((tbillAggregateRows rows).map (mappingLine "TBILL_AGGREGATE") ++
              (gsecAggregateRows rows).map (mappingLine "GSEC_AGGREGATE"))))) := by
    simp only [writeMappingLines, List.cons_append, List.append_assoc]
  have hne : writeMappingLines rows ≠ [] := by rw [hl]; simp
  have hsplit : splitStr '\n' (writeMappingContent rows) = writeMappingLines rows :=
    join_split '\n' (writeMappingLines rows) hne hnl
  have hsegfold : ∀ (cat : String) (seg : List RRow), ('\t') ∉ cat.data →
      (∀ r ∈ seg, mappingLine cat r ∈ writeMappingLines rows) →
      (∀ r ∈ seg, r ∈ mappingEntries rows) →
      ∀ m0 : List (String × VEntry),
        (seg.map (mappingLine cat)).foldl
          (fun (m2 : List (String × VEntry)) (line : String) =>
            let parts := splitStr '\t' (pyStrip line)
            if 3 ≤ parts.length then
              dictInsert m2 (listGetD parts 0)
                { isin_mapped := listGetD parts 1, name_mapped := listGetD parts 2,
                  category := listGetD parts 3, reason := listGetD parts 4 }
            else m2) m0 =
        (seg.map (kvOf cat)).foldl (fun m e => dictInsert m e.1 e.2) m0 := by
    intro cat seg hc hline hent m0
    rw [List.foldl_map, List.foldl_map]
    exact foldl_congr_list _ _ seg
      (fun b x hx => loadStep_mappingLine cat x b (hstrip _ (hline x hx)) hc
        (htab x (hent x hx)).1 (htab x (hent x hx)).2.1
        (htab x (hent x hx)).2.2.1 (htab x (hent x hx)).2.2.2) m0
  show (List.drop 1 (splitStr '\n' (writeMappingContent rows))).foldl
      (fun (m2 : List (String × VEntry)) (line : String) =>
        let parts := splitStr '\t' (pyStrip line)
        if 3 ≤ parts.length then
          dictInsert m2 (listGetD parts 0)
            { isin_mapped := listGetD parts 1, name_mapped := listGetD parts 2,
              category := listGetD parts 3, reason := listGetD parts 4 }
        else m2) [] = _
  rw [hsplit, hl]
  simp only [List.drop_succ_cons, List.drop_zero]
  simp only [mappingKVs, List.append_assoc]
  rw [List.foldl_append, List.foldl_append, List.foldl_append, List.foldl_append,
    List.foldl_append, List.foldl_append, List.foldl_append, List.foldl_append]
  rw [hsegfold "CORPORATE_ACTION" _ (by decide)
      (fun r hr => by rw [hl]; exact List.mem_cons_of_mem _ (List.mem_append_left _
        (List.mem_map.mpr ⟨r, hr, rfl⟩)))
      (fun r hr => by simp only [mappingEntries, List.append_assoc, List.mem_append]
                      exact Or.inl hr)]
  rw [hsegfold "CD_AGGREGATE" _ (by decide)
      (fun r hr => by rw [hl]; exact List.mem_cons_of_mem _ (List.mem_append_right _
        (List.mem_append_left _ (List.mem_map.mpr ⟨r, hr, rfl⟩))))
      (fun r hr => by simp only [mappingEntries, List.append_assoc, List.mem_append]
                      exact Or.inr (Or.inl hr))]
  rw [hsegfold "CP_AGGREGATE" _ (by decide)
      (fun r hr => by rw [hl]; exact List.mem_cons_of_mem _ (List.mem_append_right _
        (List.mem_append_right _ (List.mem_append_left _ (List.mem_map.mpr ⟨r, hr, rfl⟩)))))
      (fun r hr => by simp only [mappingEntries, List.append_assoc, List.mem_append]
                      exact Or.inr (Or.inr (Or.inl hr)))]
  rw [hsegfold "TBILL_AGGREGATE" _ (by decide)
      (fun r hr => by rw [hl]; exact List.mem_cons_of_mem _ (List.mem_append_right _
        (List.mem_append_right _ (List.mem_append_right _ (List.mem_append_left _
          (List.mem_map.mpr ⟨r, hr, rfl⟩))))))
      (fun r hr => by simp only [mappingEntries, List.append_assoc, List.mem_append]
                      exact Or.inr (Or.inr (Or.inr (Or.inl hr))))]
  rw [hsegfold "GSEC_AGGREGATE" _ (by decide)
      (fun r hr => by rw [hl]; exact List.mem_cons_of_mem _ (List.mem_append_right _
        (List.mem_append_right _ (List.mem_append_right _ (List.mem_append_right _
          (List.mem_map.mpr ⟨r, hr, rfl⟩))))))
      (fun r hr => by simp only [mappingEntries, List.append_assoc, List.mem_append]
                      exact Or.inr (Or.inr (Or.inr (Or.inr hr))))]

theorem processRowsAux_core_vm (df : List (List Cell)) (schema : Schema)
    (mm : List (String × NsdlEntry)) (vm vm' : List (String × VEntry)) :
    ∀ (idx : Nat) (l : List (List Cell)),
      (processRowsAux df schema mm vm idx l).map holdingsCore =
      (processRowsAux df schema mm vm' idx l).map holdingsCore
  | _, [] => rfl
  | idx, row :: rest => by
    rw [processRowsAux, processRowsAux]
    by_cases h1 : stopRowHit row = true
    · rw [if_pos h1, if_pos h1]
    · rw [if_neg h1, if_neg h1]
      by_cases h2 : isAggregationRow (cellStrStripped (cellAtD row schema.name_col))
          (cellStrStripped (cellAtD row schema.isin_col)) (rowJoinText row) = true
      · rw [if_pos h2, if_pos h2]
        exact processRowsAux_core_vm df schema mm vm vm' (idx + 1) rest
      · rw [if_neg h2, if_neg h2]
        by_cases h3 : (pyStrip (pyLower (cellStrStripped (cellAtD row schema.name_col))) =
            "reverse repo" &&
            !(isValidIsin (cellStrStripped (cellAtD row schema.isin_col))) &&
            reverseRepoSubtotal schema (df.drop (idx + 1))) = true
        · rw [if_pos h3, if_pos h3]
          exact processRowsAux_core_vm df schema mm vm vm' (idx + 1) rest
        · rw [if_neg h3, if_neg h3]
          by_cases h4 : guardedFloat (cellAtD row schema.market_value_col) = 0
          · rw [if_pos h4, if_pos h4]
            exact processRowsAux_core_vm df schema mm vm vm' (idx + 1) rest
          · rw [if_neg h4, if_neg h4]
            rw [List.map_cons, List.map_cons,
              processRowsAux_core_vm df schema mm vm vm' (idx + 1) rest]
            rfl

theorem loadHoldingsData_vm_indep (df : List (List Cell)) (schema : Schema)
    (mm : List (String × NsdlEntry)) (vm vm' : List (String × VEntry)) :
    loadHoldingsData (processSheet df schema mm vm).1 =
      loadHoldingsData (processSheet df schema mm vm').1 := by
  show loadHoldingsCore ((processSheet df schema mm vm).1.map holdingsCore) =
    loadHoldingsCore ((processSheet df schema mm vm').1.map holdingsCore)
  rw [show (processSheet df schema mm vm).1 =
      processRowsAux df schema mm vm (schema.data_start_row - 1)
        (df.drop (schema.data_start_row - 1)) from rfl]
  rw [show (processSheet df schema mm vm').1 =
      processRowsAux df schema mm vm' (schema.data_start_row - 1)
        (df.drop (schema.data_start_row - 1)) from rfl]
  rw [processRowsAux_core_vm df schema mm vm vm']

/-- C3: round-trip of the reconciliation feedback loop.  Over a ledger of
distinct identifiers whose artifact fields are clean (no tab or newline
inside a field, strip-stable lines), writing the mapping artifact, reading
it back and resolving any written identifier through the validation-mapping
application of `process_sheet` yields exactly the mapped identifier and
mapped name the engine assigned; and applying the resulting validation
mapping inside `process_sheet` does not change the reconciliation input
`load_holdings_data` reads, so a second reconciliation pass over the
now-normalized ledger regenerates an identical artifact — no further
change. -/
theorem c3_round_trip_idempotent (data : List Item)
    (hnd : (data.map Item.isin).Nodup)
    (hnl : ∀ l ∈ writeMappingLines (detectAndCategorize data), ('\n') ∉ l.data)
    (hstrip : ∀ l ∈ writeMappingLines (detectAndCategorize data), pyStrip l = l)
    (htab : ∀ r ∈ mappingEntries (detectAndCategorize data),
      ('\t') ∉ r.isin_original.data ∧ ('\t') ∉ r.isin_mapped.data ∧
      ('\t') ∉ r.name_mapped.data ∧ ('\t') ∉ r.reason.data) :
    (∀ r ∈ mappingEntries (detectAndCategorize data), ∀ nameFinal : String,
      (resolveValidation (loadIsinValidationMapping
          (writeMappingContent (detectAndCategorize data))) r.isin_original nameFinal).1 =
        r.isin_mapped ∧
      (resolveValidation (loadIsinValidationMapping
          (writeMappingContent (detectAndCategorize data))) r.isin_original nameFinal).2.1 =
        r.name_mapped) ∧
    (∀ (df : List (List Cell)) (schema : Schema) (mm : List (String × NsdlEntry)),
      writeMappingContent (detectAndCategorize (loadHoldingsData
        (processSheet df schema mm (loadIsinValidationMapping
          (writeMappingContent (detectAndCategorize data)))).1)) =
      writeMappingContent (detectAndCategorize (loadHoldingsData
        (processSheet df schema mm []).1))) := by
  have hrownd := detectAndCategorize_isins_nodup data hnd
  have hload := load_of_write (detectAndCategorize data) hnl hstrip htab
  constructor
  · intro r hr nameFinal
    have hkv : ∃ cat, kvOf cat r ∈ mappingKVs (detectAndCategorize data) := by
      rcases List.mem_append.mp hr with h4 | hg
      · rcases List.mem_append.mp h4 with h3 | ht
        · rcases List.mem_append.mp h3 with h2 | hcp
          · rcases List.mem_append.mp h2 with hca | hcd
            · exact ⟨"CORPORATE_ACTION", by
                simp only [mappingKVs, List.mem_append]
                exact Or.inl (Or.inl (Or.inl (Or.inl (List.mem_map.mpr ⟨r, hca, rfl⟩))))⟩
            · exact ⟨"CD_AGGREGATE", by
                simp only [mappingKVs, List.mem_append]
                exact Or.inl (Or.inl (Or.inl (Or.inr (List.mem_map.mpr ⟨r, hcd, rfl⟩))))⟩
          · exact ⟨"CP_AGGREGATE", by
              simp only [mappingKVs, List.mem_append]
              exact Or.inl (Or.inl (Or.inr (List.mem_map.mpr ⟨r, hcp, rfl⟩)))⟩
        · exact ⟨"TBILL_AGGREGATE", by
            simp only [mappingKVs, List.mem_append]
            exact Or.inl (Or.inr (List.mem_map.mpr ⟨r, ht, rfl⟩))⟩
      · exact ⟨"GSEC_AGGREGATE", by
          simp only [mappingKVs, List.mem_append]
          exact Or.inr (List.mem_map.mpr ⟨r, hg, rfl⟩)⟩
    obtain ⟨cat, hkvmem⟩ := hkv
    have hkeys : ((mappingKVs (detectAndCategorize data)).map Prod.fst).Nodup := by
      rw [mappingKVs_fst]
      exact mappingEntries_isins_nodup _ hrownd
    have hlookup : dictGet (loadIsinValidationMapping
        (writeMappingContent (detectAndCategorize data))) r.isin_original =
        some { isin_mapped := r.isin_mapped, name_mapped := r.name_mapped,
               category := cat, reason := r.reason } := by
      rw [hload]
      exact dictGet_foldl_mem _ [] _ _ hkeys hkvmem
    constructor
    · show (resolveValidation _ _ _).1 = _
      rw [resolveValidation, hlookup]
    · show (resolveValidation _ _ _).2.1 = _
      rw [resolveValidation, hlookup]
  · intro df schema mm
    rw [loadHoldingsData_vm_indep df schema mm _ []]

theorem c3_round_trip_idempotent_witness :
    ((scenarioB.map Item.isin).Nodup ∧
      (∀ l ∈ writeMappingLines (detectAndCategorize scenarioB), ('\n') ∉ l.data) ∧
      (∀ l ∈ writeMappingLines (detectAndCategorize scenarioB), pyStrip l = l) ∧
      (∀ r ∈ mappingEntries (detectAndCategorize scenarioB),
        ('\t') ∉ r.isin_original.data ∧ ('\t') ∉ r.isin_mapped.data ∧
        ('\t') ∉ r.name_mapped.data ∧ ('\t') ∉ r.reason.data) ∧
      scenarioBMapRow ∈ mappingEntries (detectAndCategorize scenarioB)) ∧
    ((resolveValidation (loadIsinValidationMapping
        (writeMappingContent (detectAndCategorize scenarioB)))
        scenarioBMapRow.isin_original "x").1 = scenarioBMapRow.isin_mapped ∧
      (resolveValidation (loadIsinValidationMapping
        (writeMappingContent (detectAndCategorize scenarioB)))
        scenarioBMapRow.isin_original "x").2.1 = scenarioBMapRow.name_mapped) :=
  ⟨⟨by decide, by decide, by decide, by decide, by decide⟩,
    (c3_round_trip_idempotent scenarioB (by decide) (by decide) (by decide)
      (by decide)).1 scenarioBMapRow (by decide) "x"⟩
